import Mathlib

/-!
Verification development for the `imt` font-data engine.

Modelling conventions, used consistently below:

* Byte buffers are `List Nat` (each entry one byte, big-endian multi-byte
  reads as in the source's `read_u16`/`read_u32`/... helpers).
* Rust `f32` values are modelled as `ℚ`.  All concrete inputs used in
  theorems below are chosen so that every `f32` operation the source would
  perform on them is exact, so the rational model and the IEEE-754 model
  agree on those runs.  Division by zero yields `0` in the model (where
  `f32` would produce `inf`/`NaN`); no theorem below exercises such a path.
* A Rust panic (out-of-bounds slice or index, `unwrap` of an error) is
  modelled by the distinguished outcome `oob` of the result monad.  The
  source's explicit bounds checks precede almost every read; the places
  where they do not are exactly the places a panic is reachable.
* `std::collections::hash_map::DefaultHasher` is modelled abstractly: the
  exact stream of `write_u16`/`write_u32` calls is computed faithfully as a
  list of (bit-width, value) pairs, and the final hash is an arbitrary
  function `H` of that stream, quantified or fixed where needed.  Every
  fact proved about `unique_id` holds for any deterministic hasher, hence
  in particular for the source's SipHash-based one.
* `BTreeMap` is modelled as an association list kept sorted by key with
  insertion replacing an existing binding.

The repository snapshot is internally inconsistent in a few places; the
affected definitions carry a doc comment starting with `Modelled from the
spec:` and are reconstructed from the specification text:

* `parse/mod.rs` does not declare `hvar_table` as a module and
  `parse/font.rs` has no `avar`/`hvar` fields or accessors, yet
  `util/variation.rs` calls `font.avar_table()` / `font.hvar_table()`.
  The `Font` record below carries the two optional tables the accessors
  require; `Font.fromBytes` (which is fully present in the source and
  parses neither table) leaves them absent.
* `util/variation.rs` and `raster/mod.rs` use an `Outline` with a flat
  point list, half-open contour ranges, an `f32` bounding box and a
  `rebuild` method; `glyf_table.rs` in the snapshot holds an older nested
  representation.  The flat form described in the specification's data
  model is used throughout.
* `util/mod.rs` lacks the `MalformedOutline` variant of `ImtUtilError`
  that `util/variation.rs` and `raster/mod.rs` both use; it is included.
-/

namespace Imt

/-- Error kinds, from `error.rs`. -/
inductive ImtErrorKind where
  | UnexpectedTag
  | Truncated
  | CFFNotSupported
  | InvalidSfntVersion
  | FormatNotSupported
  | Malformed
  | UnexpectedVersion
  | CollectionNotSupported
  | MissingTable
deriving DecidableEq, Repr

/-- Error sources, from `error.rs`. -/
inductive ImtErrorSource where
  | TTCHeader
  | TableDirectory
  | TableRecord
  | HeadTable
  | CmapTable
  | EncodingRecord
  | CmapSubtable
  | HheaTable
  | MaxpTable
  | HmtxTable
  | LocaTable
  | GlyfTable
  | FontData
  | FvarTable
  | NameTable
  | NameRecord
  | NameTagRecord
  | GvarTable
deriving DecidableEq, Repr

/-- An error value `(kind, source)`, from `error.rs`. -/
structure ImtError where
  kind : ImtErrorKind
  source : ImtErrorSource
deriving DecidableEq, Repr

/-- Outcome of a parser: either an `ImtError` or a Rust panic
(out-of-bounds slice index), modelled as `oob`. -/
inductive PFail where
  | err (e : ImtError)
  | oob
deriving DecidableEq, Repr

/-- Parser result monad. -/
abbrev P (α : Type) := Except PFail α

/-- Lift a bounds-checked read: `none` means the Rust slice indexing would
have panicked. -/
def liftRead {α : Type} : Option α → P α
  | some a => .ok a
  | none => .error .oob

/-- Throw an `ImtError` with the given kind and source. -/
def perr {α : Type} (k : ImtErrorKind) (s : ImtErrorSource) : P α :=
  .error (.err ⟨k, s⟩)

/-! ## Byte readers (`parse/mod.rs`) -/

/-- The bytes `bytes[off..off+n]`, or `none` when that slice is out of
bounds (a panic in Rust). -/
def beBytes? (bytes : List Nat) (off n : Nat) : Option (List Nat) :=
  if off + n ≤ bytes.length then some ((bytes.drop off).take n) else none

/-- Big-endian value of a byte list. -/
def beVal (l : List Nat) : Nat := l.foldl (fun a b => a * 256 + b) 0

/-- Two's-complement reinterpretation of a `w`-bit unsigned value. -/
def toSigned (w : Nat) (n : Nat) : Int :=
  if n < 2 ^ (w - 1) then (n : Int) else (n : Int) - 2 ^ w

/-- Source `read_u16`: big-endian `u16` at `offset`. -/
def readU16? (bytes : List Nat) (off : Nat) : Option Nat :=
  (beBytes? bytes off 2).map beVal

/-- Source `read_i16`. -/
def readI16? (bytes : List Nat) (off : Nat) : Option Int :=
  (readU16? bytes off).map (toSigned 16)

/-- Source `read_u32`. -/
def readU32? (bytes : List Nat) (off : Nat) : Option Nat :=
  (beBytes? bytes off 4).map beVal

/-- Big-endian `i32` (used by `read_fixed`). -/
def readI32? (bytes : List Nat) (off : Nat) : Option Int :=
  (readU32? bytes off).map (toSigned 32)

/-- Source `read_i64`. -/
def readI64? (bytes : List Nat) (off : Nat) : Option Int :=
  ((beBytes? bytes off 8).map beVal).map (toSigned 64)

/-- Source `read_fixed`: 16.16 fixed point decoded as `i32 / 65536`. -/
def readFixed? (bytes : List Nat) (off : Nat) : Option ℚ :=
  (readI32? bytes off).map (fun v => (v : ℚ) / 65536)

/-- Source `read_f2dot14`: 2.14 fixed point decoded as `i16 / 16384`. -/
def readF2Dot14? (bytes : List Nat) (off : Nat) : Option ℚ :=
  (readI16? bytes off).map (fun v => (v : ℚ) / 16384)

/-- Single byte `bytes[i]` (panics in Rust when out of bounds). -/
def readU8? (bytes : List Nat) (i : Nat) : Option Nat := bytes.get? i

/-- UTF-16 code-unit sequence validity, as checked by
`String::from_utf16` inside the source's `read_utf16be`. -/
def utf16Valid : List Nat → Bool
  | [] => true
  | c :: rest =>
    if 0xD800 ≤ c ∧ c < 0xDC00 then
      match rest with
      | c2 :: rest2 => if 0xDC00 ≤ c2 ∧ c2 < 0xE000 then utf16Valid rest2 else false
      | [] => false
    else if 0xDC00 ≤ c ∧ c < 0xE000 then false
    else utf16Valid rest

/-- Source `read_utf16be`: a bounded UTF-16BE string, kept as its list of
code units. -/
def readUtf16be (bytes : List Nat) (off len : Nat) (src : ImtErrorSource) :
    P (List Nat) :=
  if len % 2 ≠ 0 then perr .Malformed src
  else if off + len > bytes.length then perr .Truncated src
  else
    let units := (((bytes.drop off).take len).toChunks 2).map beVal
    if utf16Valid units then .ok units else perr .Malformed src

/-- Source `tag`: big-endian `u32` of a 4-byte tag. -/
def tagOf (a b c d : Nat) : Nat := ((a * 256 + b) * 256 + c) * 256 + d

/-- Tag constants from `parse/mod.rs`'s `table_tag` module. -/
def tagCMAP : Nat := tagOf 99 109 97 112

/-- Tag "head". -/
def tagHEAD : Nat := tagOf 104 101 97 100

/-- Tag "hhea". -/
def tagHHEA : Nat := tagOf 104 104 101 97

/-- Tag "hmtx". -/
def tagHMTX : Nat := tagOf 104 109 116 120

/-- Tag "maxp". -/
def tagMAXP : Nat := tagOf 109 97 120 112

/-- Tag "loca". -/
def tagLOCA : Nat := tagOf 108 111 99 97

/-- Tag "glyf". -/
def tagGLYF : Nat := tagOf 103 108 121 102

/-- Tag "fvar". -/
def tagFVAR : Nat := tagOf 102 118 97 114

/-- Tag "name". -/
def tagNAME : Nat := tagOf 110 97 109 101

/-- Tag "gvar". -/
def tagGVAR : Nat := tagOf 103 118 97 114

/-- Tag "avar". -/
def tagAVAR : Nat := tagOf 97 118 97 114

/-- Tag "ttcf". -/
def tagTTCF : Nat := tagOf 116 116 99 102

/-- Tag "OTTO". -/
def tagOTTO : Nat := tagOf 79 84 84 79

/-! ## Ordered-map model of `BTreeMap` -/

/-- Ordered-association-list insert, replacing an existing binding
(`BTreeMap::insert`). -/
def btreeInsert {α : Type} : List (Nat × α) → Nat → α → List (Nat × α)
  | [], k, v => [(k, v)]
  | (k0, v0) :: rest, k, v =>
    if k < k0 then (k, v) :: (k0, v0) :: rest
    else if k = k0 then (k, v) :: rest
    else (k0, v0) :: btreeInsert rest k v

/-- `BTreeMap::get`. -/
def btreeGet? {α : Type} (l : List (Nat × α)) (k : Nat) : Option α :=
  (l.find? (fun p => p.1 == k)).map (fun p => p.2)

/-! ## Table structures -/

/-- The "TTC Header", from `ttc_header.rs`. -/
structure TTCHeader where
  ttc_tag : Nat
  major_version : Nat
  minor_version : Nat
  num_fonts : Nat
  table_directory_offsets : List Nat
  dsig_tag : Nat
  dsig_length : Nat
  dsig_offset : Nat
deriving DecidableEq, Repr

/-- A "Table Record", from `table_directory.rs`. -/
structure TableRecord where
  table_tag : Nat
  checksum : Nat
  offset : Nat
  length : Nat
deriving DecidableEq, Repr

/-- The "Table Directory", from `table_directory.rs`. -/
structure TableDirectory where
  sfnt_version : Nat
  table_records : List TableRecord
deriving DecidableEq, Repr

/-- A cmap subtable (format 4 only), from `cmap_table.rs`. -/
structure CmapSubtable where
  language : Nat
  glyph_id_map : List (Nat × Nat)
deriving DecidableEq, Repr

/-- A cmap encoding record, from `cmap_table.rs`. -/
structure EncodingRecord where
  platform_id : Nat
  encoding_id : Nat
  subtable : CmapSubtable
deriving DecidableEq, Repr

/-- The `cmap` table, from `cmap_table.rs`. -/
structure CmapTable where
  version : Nat
  encoding_records : List EncodingRecord
deriving DecidableEq, Repr

/-- The `head` table, from `head_table.rs`. -/
structure HeadTable where
  major_version : Nat
  minor_version : Nat
  font_revision : List Nat
  checksum_adjustment : Nat
  magic_number : Nat
  flags : Nat
  units_per_em : Nat
  created : Int
  modified : Int
  x_min : Int
  y_min : Int
  x_max : Int
  y_max : Int
  mac_style : Nat
  lowest_rec_ppem : Nat
  font_direction_hint : Int
  index_to_loc_format : Int
  glyph_data_format : Int
deriving DecidableEq, Repr

/-- The `hhea` table, from `hhea_table.rs`. -/
structure HheaTable where
  major_version : Nat
  minor_version : Nat
  ascender : Int
  descender : Int
  line_gap : Int
  advance_width_max : Nat
  min_left_side_bearing : Int
  min_right_side_bearing : Int
  x_map_extent : Int
  caret_slope_rise : Int
  caret_slow_run : Int
  caret_offset : Int
  metric_data_format : Int
  number_of_h_metrics : Nat
deriving DecidableEq, Repr

/-- The `maxp` table, from `maxp_table.rs`. -/
structure MaxpTable where
  version : Nat
  num_glyphs : Nat
  max_points : Nat
  max_countours : Nat
  max_composite_points : Nat
  max_composite_contours : Nat
  max_zones : Nat
  max_twilight_points : Nat
  max_storage : Nat
  max_function_defs : Nat
  max_instruction_defs : Nat
  max_stack_elements : Nat
  max_size_of_instructions : Nat
  max_component_elements : Nat
  max_component_depth : Nat
deriving DecidableEq, Repr

/-- A full horizontal metric `(advance width, left side bearing)`, from
`hmtx_table.rs`. -/
structure HorMetric where
  advance_width : Nat
  lsb : Int
deriving DecidableEq, Repr

/-- The `hmtx` table, from `hmtx_table.rs`. -/
structure HmtxTable where
  hor_metric : List HorMetric
  left_side_bearings : List Int
deriving DecidableEq, Repr

/-- The `loca` table, from `loca_table.rs`. -/
structure LocaTable where
  offsets : List Nat
deriving DecidableEq, Repr

/-- A name record with its decoded UTF-16 string, from `name_table.rs`. -/
structure NameRecord where
  platform_id : Nat
  encoding_id : Nat
  language_id : Nat
  name_id : Nat
  name : List Nat
deriving DecidableEq, Repr

/-- A language-tag record, from `name_table.rs`. -/
structure LangTagRecord where
  tagStr : List Nat
deriving DecidableEq, Repr

/-- The `name` table, from `name_table.rs`. -/
structure NameTable where
  version : Nat
  name_records : List NameRecord
  lang_tag_records : List LangTagRecord
deriving DecidableEq, Repr

/-- A variation axis record, from `fvar_table.rs`. -/
structure VariationAxisRecord where
  axis_tag : Nat
  min_value : ℚ
  default_value : ℚ
  max_value : ℚ
  flags : Nat
  axis_name_id : Nat
deriving DecidableEq, Repr

/-- A named instance record, from `fvar_table.rs`. -/
structure InstanceRecord where
  sub_family_name_id : Nat
  flags : Nat
  coordinates : List ℚ
  post_script_name_id : Option Nat
deriving DecidableEq, Repr

/-- The `fvar` table, from `fvar_table.rs`. -/
structure FvarTable where
  major_version : Nat
  minor_version : Nat
  axes : List VariationAxisRecord
  instances : List InstanceRecord
deriving DecidableEq, Repr

/-- An avar axis value map entry, from `avar_table.rs`. -/
structure AxisValueMap where
  from_coord : ℚ
  to_coord : ℚ
deriving DecidableEq, Repr

/-- An avar per-axis segment map, from `avar_table.rs`. -/
structure SegmentMap where
  axis_value_maps : List AxisValueMap
deriving DecidableEq, Repr

/-- The `avar` table, from `avar_table.rs`. -/
structure AvarTable where
  major_version : Nat
  minor_version : Nat
  segment_maps : List SegmentMap
deriving DecidableEq, Repr

/-- Intermediate (start, end) tuples of a gvar tuple variation, from
`gvar_table.rs`. -/
structure IntermediateTuples where
  start : List ℚ
  stop : List ℚ
deriving DecidableEq, Repr

/-- One gvar tuple variation, from `gvar_table.rs`.  `points` empty means
the tuple targets all points. -/
structure TupleVariation where
  peak : List ℚ
  interm : Option IntermediateTuples
  points : List Nat
  deltas : List (Int × Int)
deriving DecidableEq, Repr

/-- All tuple variations of one glyph, from `gvar_table.rs`. -/
structure GlyphVariation where
  tuples : List TupleVariation
deriving DecidableEq, Repr

/-- The `gvar` table, from `gvar_table.rs`. -/
structure GvarTable where
  major_version : Nat
  minor_version : Nat
  axis_count : Nat
  glyph_variations : List (Nat × GlyphVariation)
deriving DecidableEq, Repr

/-- Per-axis region coordinates of an item variation region, from
`hvar_table.rs`. -/
structure RegionAxisCoordinates where
  start : ℚ
  peak : ℚ
  stop : ℚ
deriving DecidableEq, Repr

/-- An item variation region, from `hvar_table.rs`. -/
structure VariationRegion where
  axes : List RegionAxisCoordinates
deriving DecidableEq, Repr

/-- One delta word (8-, 16- or 32-bit), from `hvar_table.rs`; `as_f32`
reinterprets the signed value as a float, here a rational. -/
inductive DeltaData where
  | I8 (v : Int)
  | I16 (v : Int)
  | I32 (v : Int)
deriving DecidableEq, Repr

/-- Source `DeltaData::as_f32`. -/
def DeltaData.asF32 : DeltaData → ℚ
  | .I8 v => (v : ℚ)
  | .I16 v => (v : ℚ)
  | .I32 v => (v : ℚ)

/-- A delta-set row, from `hvar_table.rs`. -/
structure DeltaSet where
  data : List DeltaData
deriving DecidableEq, Repr

/-- An item variation data subtable, from `hvar_table.rs`. -/
structure ItemVariationData where
  region_indexes : List Nat
  delta_sets : List DeltaSet
deriving DecidableEq, Repr

/-- The item variation store, from `hvar_table.rs`. -/
structure ItemVariationStore where
  axis_count : Nat
  regions : List VariationRegion
  item_data : List ItemVariationData
deriving DecidableEq, Repr

/-- A delta-set index map, from `hvar_table.rs`; each entry is the pair
`[outer, inner]`. -/
structure DeltaSetIndexMap where
  map_data : List (Nat × Nat)
deriving DecidableEq, Repr

/-- The `hvar` table, from `hvar_table.rs`. -/
structure HvarTable where
  major_version : Nat
  minor_version : Nat
  item_variation_store : ItemVariationStore
  advance_map : Option DeltaSetIndexMap
  lsb_map : Option DeltaSetIndexMap
  rsb_map : Option DeltaSetIndexMap
deriving DecidableEq, Repr

/-! ## TTC header and table directory parsers -/

/-- Source `TTCHeader::try_parse` (`ttc_header.rs`).  The very first read
`bytes[0..4]` happens before any length check, so a buffer shorter than 4
bytes panics (`oob`) rather than erroring. -/
def TTCHeader.tryParse (bytes : List Nat) : P TTCHeader := do
  let ttc_tag ← liftRead (readU32? bytes 0)
  if tagTTCF ≠ ttc_tag then perr .UnexpectedTag .TTCHeader
  else if bytes.length < 12 then perr .Truncated .TTCHeader
  else do
    let major_version ← liftRead (readU16? bytes 4)
    let minor_version ← liftRead (readU16? bytes 6)
    let num_fonts ← liftRead (readU32? bytes 8)
    let tdo_end := 12 + num_fonts * 4
    if bytes.length < tdo_end then perr .Truncated .TTCHeader
    else do
      let table_directory_offsets :=
        (((bytes.drop 12).take (num_fonts * 4)).toChunks 4).map beVal
      if major_version = 2 then
        if bytes.length < tdo_end + 12 then perr .Truncated .TTCHeader
        else do
          let dsig_tag ← liftRead (readU32? bytes tdo_end)
          let dsig_length ← liftRead (readU32? bytes (tdo_end + 4))
          let dsig_offset ← liftRead (readU32? bytes (tdo_end + 8))
          pure ⟨ttc_tag, major_version, minor_version, num_fonts,
            table_directory_offsets, dsig_tag, dsig_length, dsig_offset⟩
      else
        pure ⟨ttc_tag, major_version, minor_version, num_fonts,
          table_directory_offsets, 0, 0, 0⟩

/-- Source `TableRecord::try_parse` (`table_directory.rs`). -/
def TableRecord.tryParse (bytes : List Nat) (base : Nat) : P TableRecord := do
  if bytes.length < base + 16 then perr .Truncated .TableRecord
  else do
    let table_tag ← liftRead (readU32? bytes base)
    let checksum ← liftRead (readU32? bytes (base + 4))
    let offset ← liftRead (readU32? bytes (base + 8))
    let length ← liftRead (readU32? bytes (base + 12))
    pure ⟨table_tag, checksum, offset, length⟩

/-- Source `TableDirectory::try_parse` (`table_directory.rs`).  Note the
order of checks: the 12-byte length check comes first, then the "OTTO"
rejection, then the sfnt-version check. -/
def TableDirectory.tryParse (bytes : List Nat) (base : Nat) : P TableDirectory := do
  if bytes.length < base + 12 then perr .Truncated .TableDirectory
  else do
    let sfnt_version ← liftRead (readU32? bytes base)
    if sfnt_version = tagOTTO then perr .CFFNotSupported .TableDirectory
    else if sfnt_version ≠ 65536 then perr .InvalidSfntVersion .TableDirectory
    else do
      let num_tables ← liftRead (readU16? bytes (base + 4))
      if (base + 12) + num_tables * 16 > bytes.length then
        perr .Truncated .TableDirectory
      else do
        let table_records ← (List.range num_tables).mapM
          (fun i => TableRecord.tryParse bytes (base + 12 + i * 16))
        pure ⟨sfnt_version, table_records⟩

/-! ## Per-table parsers -/

/-- Source `HeadTable::try_parse` (`head_table.rs`). -/
def HeadTable.tryParse (bytes : List Nat) (off : Nat) : P HeadTable := do
  if off + 54 > bytes.length then perr .Truncated .HeadTable
  else do
    let major_version ← liftRead (readU16? bytes off)
    let minor_version ← liftRead (readU16? bytes (off + 2))
    if major_version ≠ 1 ∨ minor_version ≠ 0 then perr .UnexpectedVersion .HeadTable
    else do
      let font_revision ← liftRead (beBytes? bytes (off + 4) 4)
      let checksum_adjustment ← liftRead (readU32? bytes (off + 8))
      let magic_number ← liftRead (readU32? bytes (off + 12))
      if magic_number ≠ 0x5f0f3cf5 then perr .Malformed .HeadTable
      else do
        let flags ← liftRead (readU16? bytes (off + 16))
        let units_per_em ← liftRead (readU16? bytes (off + 18))
        let created ← liftRead (readI64? bytes (off + 20))
        let modified ← liftRead (readI64? bytes (off + 28))
        let x_min ← liftRead (readI16? bytes (off + 36))
        let y_min ← liftRead (readI16? bytes (off + 38))
        let x_max ← liftRead (readI16? bytes (off + 40))
        let y_max ← liftRead (readI16? bytes (off + 42))
        let mac_style ← liftRead (readU16? bytes (off + 44))
        let lowest_rec_ppem ← liftRead (readU16? bytes (off + 46))
        let font_direction_hint ← liftRead (readI16? bytes (off + 48))
        let index_to_loc_format ← liftRead (readI16? bytes (off + 50))
        let glyph_data_format ← liftRead (readI16? bytes (off + 52))
        pure ⟨major_version, minor_version, font_revision, checksum_adjustment,
          magic_number, flags, units_per_em, created, modified, x_min, y_min,
          x_max, y_max, mac_style, lowest_rec_ppem, font_direction_hint,
          index_to_loc_format, glyph_data_format⟩

/-- Source `HheaTable::try_parse` (`hhea_table.rs`). -/
def HheaTable.tryParse (bytes : List Nat) (off : Nat) : P HheaTable := do
  if off + 36 > bytes.length then perr .Truncated .HheaTable
  else do
    let major_version ← liftRead (readU16? bytes off)
    let minor_version ← liftRead (readU16? bytes (off + 2))
    if major_version ≠ 1 ∨ minor_version ≠ 0 then perr .UnexpectedVersion .HheaTable
    else do
      let ascender ← liftRead (readI16? bytes (off + 4))
      let descender ← liftRead (readI16? bytes (off + 6))
      let line_gap ← liftRead (readI16? bytes (off + 8))
      let advance_width_max ← liftRead (readU16? bytes (off + 10))
      let min_left_side_bearing ← liftRead (readI16? bytes (off + 12))
      let min_right_side_bearing ← liftRead (readI16? bytes (off + 14))
      let x_map_extent ← liftRead (readI16? bytes (off + 16))
      let caret_slope_rise ← liftRead (readI16? bytes (off + 18))
      let caret_slow_run ← liftRead (readI16? bytes (off + 20))
      let caret_offset ← liftRead (readI16? bytes (off + 22))
      let r0 ← liftRead (readI16? bytes (off + 24))
      let r1 ← liftRead (readI16? bytes (off + 26))
      let r2 ← liftRead (readI16? bytes (off + 28))
      let r3 ← liftRead (readI16? bytes (off + 30))
      if r0 ≠ 0 ∨ r1 ≠ 0 ∨ r2 ≠ 0 ∨ r3 ≠ 0 then perr .Malformed .HheaTable
      else do
        let metric_data_format ← liftRead (readI16? bytes (off + 32))
        let number_of_h_metrics ← liftRead (readU16? bytes (off + 34))
        pure ⟨major_version, minor_version, ascender, descender, line_gap,
          advance_width_max, min_left_side_bearing, min_right_side_bearing,
          x_map_extent, caret_slope_rise, caret_slow_run, caret_offset,
          metric_data_format, number_of_h_metrics⟩

/-- Source `MaxpTable::try_parse` (`maxp_table.rs`). -/
def MaxpTable.tryParse (bytes : List Nat) (off : Nat) : P MaxpTable := do
  if off + 6 > bytes.length then perr .Truncated .MaxpTable
  else do
    let version ← liftRead (readU32? bytes off)
    let num_glyphs ← liftRead (readU16? bytes (off + 4))
    if version = 0x00005000 then
      pure ⟨version, num_glyphs, 0, 0, 0, 0, 0, 0, 0, 0, 0, 0, 0, 0, 0⟩
    else if version = 0x00010000 then
      if off + 32 > bytes.length then perr .Truncated .MaxpTable
      else do
        let max_points ← liftRead (readU16? bytes (off + 6))
        let max_countours ← liftRead (readU16? bytes (off + 8))
        let max_composite_points ← liftRead (readU16? bytes (off + 10))
        let max_composite_contours ← liftRead (readU16? bytes (off + 12))
        let max_zones ← liftRead (readU16? bytes (off + 14))
        let max_twilight_points ← liftRead (readU16? bytes (off + 16))
        let max_storage ← liftRead (readU16? bytes (off + 18))
        let max_function_defs ← liftRead (readU16? bytes (off + 20))
        let max_instruction_defs ← liftRead (readU16? bytes (off + 22))
        let max_stack_elements ← liftRead (readU16? bytes (off + 24))
        let max_size_of_instructions ← liftRead (readU16? bytes (off + 26))
        let max_component_elements ← liftRead (readU16? bytes (off + 28))
        let max_component_depth ← liftRead (readU16? bytes (off + 30))
        pure ⟨version, num_glyphs, max_points, max_countours,
          max_composite_points, max_composite_contours, max_zones,
          max_twilight_points, max_storage, max_function_defs,
          max_instruction_defs, max_stack_elements, max_size_of_instructions,
          max_component_elements, max_component_depth⟩
    else perr .UnexpectedVersion .MaxpTable

/-- Source `HmtxTable::try_parse` (`hmtx_table.rs`).  `hor_metric` holds
exactly `number_of_h_metrics` entries; the LSB-only tail goes into
`left_side_bearings`. -/
def HmtxTable.tryParse (bytes : List Nat) (off : Nat) (maxp : MaxpTable)
    (hhea : HheaTable) : P HmtxTable := do
  if maxp.num_glyphs < hhea.number_of_h_metrics then perr .Malformed .HmtxTable
  else do
    let hor_metric_len := hhea.number_of_h_metrics
    let left_side_bearings_len := maxp.num_glyphs - hor_metric_len
    if off + hor_metric_len * 4 + left_side_bearings_len * 2 > bytes.length then
      perr .Truncated .HmtxTable
    else do
      let hor_metric ← (List.range hor_metric_len).mapM (fun i => do
        let aw ← liftRead (readU16? bytes (off + i * 4))
        let lsb ← liftRead (readI16? bytes (off + i * 4 + 2))
        pure (⟨aw, lsb⟩ : HorMetric))
      let lsbOff := off + hor_metric_len * 4
      let left_side_bearings ← (List.range left_side_bearings_len).mapM
        (fun i => liftRead (readI16? bytes (lsbOff + i * 2)))
      pure ⟨hor_metric, left_side_bearings⟩

/-- Source `LocaTable::try_parse` (`loca_table.rs`). -/
def LocaTable.tryParse (bytes : List Nat) (off : Nat) (head : HeadTable)
    (maxp : MaxpTable) : P LocaTable := do
  let num_glyphs := maxp.num_glyphs
  if head.index_to_loc_format = 0 then
    if off + (num_glyphs + 1) * 2 > bytes.length then perr .Truncated .LocaTable
    else do
      let offsets ← (List.range (num_glyphs + 1)).mapM
        (fun i => (liftRead (readU16? bytes (off + i * 2))).map (· * 2))
      pure ⟨offsets⟩
  else if head.index_to_loc_format = 1 then
    if off + (num_glyphs + 1) * 4 > bytes.length then perr .Truncated .LocaTable
    else do
      let offsets ← (List.range (num_glyphs + 1)).mapM
        (fun i => liftRead (readU32? bytes (off + i * 4)))
      pure ⟨offsets⟩
  else perr .FormatNotSupported .LocaTable

/-- One format-4 segment as read by `CmapSubtable::try_parse`
(`cmap_table.rs`). -/
structure Segment4 where
  end_code : Nat
  start_code : Nat
  id_delta : Int
  id_range_offset : Nat
deriving DecidableEq, Repr

/-- Glyph-id computation `(v + id_delta) & 0xFFFF` on `i32`, which equals
the non-negative remainder modulo 2^16. -/
def glyphIdOf (v : Nat) (id_delta : Int) : Nat :=
  (((v : Int) + id_delta).emod 65536).toNat

/-- Body of the per-segment code loop of `CmapSubtable::try_parse`:
inserts one `code ↦ glyph id` binding, reading through the glyph-id array
when `id_range_offset ≠ 0`. -/
def cmapInsertCode (bytes : List Nat) (id_range_offset_offset : Nat) (i : Nat)
    (seg : Segment4) (map : List (Nat × Nat)) (code : Nat) :
    P (List (Nat × Nat)) := do
  if seg.id_range_offset = 0 then
    pure (btreeInsert map code (glyphIdOf code seg.id_delta))
  else do
    let glyph_id_offset := 2 + id_range_offset_offset
      + (i + ((code - seg.start_code) + seg.id_range_offset) / 2) * 2
    if glyph_id_offset + 2 > bytes.length then perr .Malformed .CmapSubtable
    else do
      let glyph_id_value ← liftRead (readU16? bytes glyph_id_offset)
      pure (btreeInsert map code (glyphIdOf glyph_id_value seg.id_delta))

/-- Source `CmapSubtable::try_parse` (`cmap_table.rs`), format 4 only. -/
def CmapSubtable.tryParse (bytes : List Nat) (base : Nat) : P CmapSubtable := do
  if base + 2 > bytes.length then perr .Truncated .CmapSubtable
  else do
    let format ← liftRead (readU16? bytes base)
    if format = 4 then
      if base + 14 > bytes.length then perr .Truncated .CmapSubtable
      else do
        let language ← liftRead (readU16? bytes (base + 4))
        let segCountX2 ← liftRead (readU16? bytes (base + 6))
        let seg_count := segCountX2 / 2
        if seg_count = 0 then perr .Malformed .CmapSubtable
        else if base + 16 + seg_count * 8 > bytes.length then
          perr .Truncated .CmapSubtable
        else do
          let end_code_offset := base + 14
          let start_code_offset := end_code_offset + seg_count * 2 + 2
          let id_delta_offset := start_code_offset + seg_count * 2
          let id_range_offset_offset := id_delta_offset + seg_count * 2
          let segments ← (List.range seg_count).mapM (fun i => do
            let end_code ← liftRead (readU16? bytes (end_code_offset + i * 2))
            let start_code ← liftRead (readU16? bytes (start_code_offset + i * 2))
            let id_delta ← liftRead (readI16? bytes (id_delta_offset + i * 2))
            let id_range_offset ← liftRead (readU16? bytes (id_range_offset_offset + i * 2))
            pure (⟨end_code, start_code, id_delta, id_range_offset⟩ : Segment4))
          match segments.getLast? with
          | none => perr .Malformed .CmapSubtable
          | some last_segment =>
            if last_segment.start_code ≠ 0xFFFF ∨ last_segment.end_code ≠ 0xFFFF then
              perr .Malformed .CmapSubtable
            else do
              let segs := segments.dropLast
              let st ← segs.enum.foldlM (fun (st : Nat × List (Nat × Nat)) (iseg : Nat × Segment4) => do
                let (previous_code, map) := st
                let (i, seg) := iseg
                if seg.start_code > seg.end_code then perr .Malformed .CmapSubtable
                else do
                  let s := if seg.start_code ≤ previous_code then previous_code + 1
                           else seg.start_code
                  if s > seg.end_code then
                    pure (previous_code, map)
                  else do
                    let map ← (List.range' s (seg.end_code + 1 - s)).foldlM
                      (fun m code => cmapInsertCode bytes id_range_offset_offset i seg m code)
                      map
                    pure (seg.end_code, map))
                ((0 : Nat), ([] : List (Nat × Nat)))
              pure ⟨language, st.2⟩
    else perr .FormatNotSupported .CmapSubtable

/-- Source `EncodingRecord::try_parse` (`cmap_table.rs`). -/
def EncodingRecord.tryParse (bytes : List Nat) (table_offset base : Nat) :
    P EncodingRecord := do
  if base + 8 > bytes.length then perr .Truncated .EncodingRecord
  else do
    let platform_id ← liftRead (readU16? bytes base)
    let encoding_id ← liftRead (readU16? bytes (base + 2))
    let subtable_offset ← liftRead (readU32? bytes (base + 4))
    let subtable ← CmapSubtable.tryParse bytes (table_offset + subtable_offset)
    pure ⟨platform_id, encoding_id, subtable⟩

/-- Source `CmapTable::try_parse` (`cmap_table.rs`). -/
def CmapTable.tryParse (bytes : List Nat) (base : Nat) : P CmapTable := do
  if base + 4 > bytes.length then perr .Truncated .CmapTable
  else do
    let version ← liftRead (readU16? bytes base)
    let num_tables ← liftRead (readU16? bytes (base + 2))
    if (base + 4) + num_tables * 8 > bytes.length then perr .Truncated .CmapTable
    else do
      let encoding_records ← (List.range num_tables).mapM
        (fun i => EncodingRecord.tryParse bytes base (base + 4 + i * 8))
      pure ⟨version, encoding_records⟩

/-- Source `NameRecord::try_parse` (`name_table.rs`). -/
def NameRecord.tryParse (bytes : List Nat) (record_offset storage_offset : Nat) :
    P NameRecord := do
  if record_offset + 12 > bytes.length then perr .Truncated .NameRecord
  else do
    let platform_id ← liftRead (readU16? bytes record_offset)
    let encoding_id ← liftRead (readU16? bytes (record_offset + 2))
    let language_id ← liftRead (readU16? bytes (record_offset + 4))
    let name_id ← liftRead (readU16? bytes (record_offset + 6))
    let length ← liftRead (readU16? bytes (record_offset + 8))
    let string_offset ← liftRead (readU16? bytes (record_offset + 10))
    let name ← readUtf16be bytes (string_offset + storage_offset) length .NameRecord
    pure ⟨platform_id, encoding_id, language_id, name_id, name⟩

/-- Source `LangTagRecord::try_parse` (`name_table.rs`). -/
def LangTagRecord.tryParse (bytes : List Nat) (record_offset storage_offset : Nat) :
    P LangTagRecord := do
  if record_offset + 4 > bytes.length then perr .Truncated .NameTagRecord
  else do
    let length ← liftRead (readU16? bytes record_offset)
    let lang_tag_offset ← liftRead (readU16? bytes (record_offset + 2))
    let s ← readUtf16be bytes (lang_tag_offset + storage_offset) length .NameTagRecord
    pure ⟨s⟩

/-- Source `NameTable::try_parse` (`name_table.rs`). -/
def NameTable.tryParse (bytes : List Nat) (off : Nat) : P NameTable := do
  if off + 6 > bytes.length then perr .Truncated .NameTable
  else do
    let version ← liftRead (readU16? bytes off)
    if version ≠ 0 ∧ version ≠ 1 then perr .UnexpectedVersion .NameTable
    else do
      let name_count ← liftRead (readU16? bytes (off + 2))
      let storage_offset0 ← liftRead (readU16? bytes (off + 4))
      let storage_offset := storage_offset0 + off
      let record_offset0 := off + 6
      if record_offset0 + name_count * 12 > bytes.length then perr .Truncated .NameTable
      else do
        let name_records ← (List.range name_count).mapM
          (fun i => NameRecord.tryParse bytes (record_offset0 + i * 12) storage_offset)
        let record_offset1 := record_offset0 + name_count * 12
        if version = 1 then
          if record_offset1 + 2 > bytes.length then perr .Truncated .NameTable
          else do
            let lang_tag_count ← liftRead (readU16? bytes record_offset1)
            let record_offset2 := record_offset1 + 2
            if record_offset2 + lang_tag_count * 4 > bytes.length then
              perr .Truncated .NameTable
            else do
              let lang_tag_records ← (List.range lang_tag_count).mapM
                (fun i => LangTagRecord.tryParse bytes (record_offset2 + i * 4) storage_offset)
              pure ⟨version, name_records, lang_tag_records⟩
        else pure ⟨version, name_records, []⟩

/-- Source `VariationAxisRecord::parse` (`fvar_table.rs`); the Rust
function performs unchecked reads, so any out-of-range read is `oob`. -/
def VariationAxisRecord.parse (bytes : List Nat) (off : Nat) :
    P VariationAxisRecord := do
  let axis_tag ← liftRead (readU32? bytes off)
  let min_value ← liftRead (readFixed? bytes (off + 4))
  let default_value ← liftRead (readFixed? bytes (off + 8))
  let max_value ← liftRead (readFixed? bytes (off + 12))
  let flags ← liftRead (readU16? bytes (off + 16))
  let axis_name_id ← liftRead (readU16? bytes (off + 18))
  pure ⟨axis_tag, min_value, default_value, max_value, flags, axis_name_id⟩

/-- Source `InstanceRecord::parse` (`fvar_table.rs`). -/
def InstanceRecord.parse (bytes : List Nat) (off axis_count : Nat)
    (post_script_name : Bool) : P InstanceRecord := do
  let sub_family_name_id ← liftRead (readU16? bytes off)
  let flags ← liftRead (readU16? bytes (off + 2))
  let coordinates ← (List.range axis_count).mapM
    (fun i => liftRead (readFixed? bytes (off + 4 + i * 4)))
  if post_script_name then do
    let psid ← liftRead (readU16? bytes (off + 4 + axis_count * 4))
    pure ⟨sub_family_name_id, flags, coordinates, some psid⟩
  else pure ⟨sub_family_name_id, flags, coordinates, none⟩

/-- Source `FvarTable::try_parse` (`fvar_table.rs`). -/
def FvarTable.tryParse (bytes : List Nat) (off : Nat) : P FvarTable := do
  if off + 16 > bytes.length then perr .Truncated .FvarTable
  else do
    let major_version ← liftRead (readU16? bytes off)
    let minor_version ← liftRead (readU16? bytes (off + 2))
    if major_version ≠ 1 ∨ minor_version ≠ 0 then perr .UnexpectedVersion .FvarTable
    else do
      let axes_array_offset ← liftRead (readU16? bytes (off + 4))
      let two ← liftRead (readU16? bytes (off + 6))
      if two ≠ 2 then perr .Malformed .FvarTable
      else do
        let axis_count ← liftRead (readU16? bytes (off + 8))
        let axis_size ← liftRead (readU16? bytes (off + 10))
        if axis_size ≠ 20 then perr .Malformed .FvarTable
        else do
          let instance_count ← liftRead (readU16? bytes (off + 12))
          let instance_size ← liftRead (readU16? bytes (off + 14))
          let size_without_ps_name := axis_count * 4 + 4
          let size_with_ps_name := axis_count * 4 + 6
          if instance_size ≠ size_without_ps_name ∧ instance_size ≠ size_with_ps_name then
            perr .Malformed .FvarTable
          else do
            let record_offset := off + axes_array_offset
            if record_offset + axis_count * axis_size + instance_count * instance_size
                > bytes.length then
              perr .Truncated .FvarTable
            else do
              let axes ← (List.range axis_count).mapM
                (fun i => VariationAxisRecord.parse bytes (record_offset + i * axis_size))
              let inst_base := record_offset + axis_count * axis_size
              let instances ← (List.range instance_count).mapM
                (fun i => InstanceRecord.parse bytes (inst_base + i * instance_size)
                  axis_count (instance_size = size_with_ps_name))
              pure ⟨major_version, minor_version, axes, instances⟩

/-! ## Outline -/

/-- A raw outline point. -/
structure OutlinePoint where
  x : ℚ
  y : ℚ
  control : Bool
deriving DecidableEq, Repr

/-- One geometry element of the rebuilt projection: a straight segment or
a quadratic Bezier curve. -/
inductive OutlineGeom where
  | segment (p1 p2 : OutlinePoint)
  | curve (p1 p2 p3 : OutlinePoint)
deriving DecidableEq, Repr

/-- Modelled from the spec: the flat `Outline` used by `util/variation.rs`
and `raster/mod.rs` (the snapshot's `glyf_table.rs` still holds an older
nested representation).  A bounding box, a flat point sequence, half-open
contour ranges `[start, stop)` over it, the derived geometry projection,
and the pre-unpacking point count used by `gvar`. -/
structure Outline where
  x_min : ℚ
  y_min : ℚ
  x_max : ℚ
  y_max : ℚ
  points : List OutlinePoint
  contours : List (Nat × Nat)
  geometry : List OutlineGeom
  num_packed_points : Nat
deriving DecidableEq, Repr

/-- Geometry of one contour, following the curve/segment assembly loop of
the source's glyph decoding (`glyf_table.rs`): a control point yields a
curve with its cyclic neighbours, an on-curve point followed by an
on-curve point yields a segment.  `none` when the contour is malformed
(first point a control point, or a single-point contour). -/
def contourGeometry (pts : List OutlinePoint) : Option (List OutlineGeom) :=
  (List.range pts.length).foldlM (fun acc k => do
    let pk ← pts.get? k
    if pk.control then
      if k = 0 then none
      else do
        let pprev ← pts.get? (k - 1)
        let pnext ← if k + 1 ≥ pts.length then pts.get? 0 else pts.get? (k + 1)
        some (acc ++ [OutlineGeom.curve pprev pk pnext])
    else
      let l := (k + 1) % pts.length
      if l = k then none
      else do
        let pl ← pts.get? l
        if pl.control then some acc
        else some (acc ++ [OutlineGeom.segment pk pl])) []

/-- Points of one contour of `o` (by its half-open range). -/
def contourPoints (o : Outline) (r : Nat × Nat) : List OutlinePoint :=
  (o.points.drop r.1).take (r.2 - r.1)

/-- The point sequence of a contour with the implicit on-curve midpoints
between two adjacent control points materialized (the spec's rebuild-time
projection rule). -/
def withMidpoints : List OutlinePoint → List OutlinePoint
  | [] => []
  | [p] => [p]
  | p :: q :: rest =>
    if p.control ∧ q.control then
      p :: ⟨(p.x + q.x) / 2, (p.y + q.y) / 2, false⟩ :: withMidpoints (q :: rest)
    else p :: withMidpoints (q :: rest)

/-- Modelled from the spec: `Outline::rebuild` recomputes the tight
bounding box from all points (including implicit midpoints) and
materializes the geometry projection; the raw points, contour ranges and
packed-point count are untouched.  Fails when some contour is malformed
(fewer than 3 points or a leading control point). -/
def Outline.rebuild (o : Outline) : Option Outline := do
  let derived ← o.contours.mapM (fun r => do
    let pts := contourPoints o r
    if pts.length < 3 then none
    else do
      let ptsM := withMidpoints pts
      let g ← contourGeometry ptsM
      some (ptsM, g))
  let allPts := (derived.map Prod.fst).flatten
  let xs := allPts.map OutlinePoint.x
  let ys := allPts.map OutlinePoint.y
  some { o with
    x_min := xs.foldl min (xs.headD 0)
    x_max := xs.foldl max (xs.headD 0)
    y_min := ys.foldl min (ys.headD 0)
    y_max := ys.foldl max (ys.headD 0)
    geometry := (derived.map Prod.snd).flatten }

/-! ## glyf parser -/

/-- Flag bit 0x01 `ON_CURVE_POINT` of a simple-glyph flag byte. -/
def flagOnCurve (f : Nat) : Bool := f % 2 = 1

/-- Flag bit 0x02 `X_SHORT_VECTOR`. -/
def flagXShort (f : Nat) : Bool := f / 2 % 2 = 1

/-- Flag bit 0x04 `Y_SHORT_VECTOR`. -/
def flagYShort (f : Nat) : Bool := f / 4 % 2 = 1

/-- Flag bit 0x08 `REPEAT_FLAG`. -/
def flagRepeat (f : Nat) : Bool := f / 8 % 2 = 1

/-- Flag bit 0x10 `X_IS_SAME_OR_POSITIVE_X_SHORT_VECTOR`. -/
def flagXSame (f : Nat) : Bool := f / 16 % 2 = 1

/-- Flag bit 0x20 `Y_IS_SAME_OR_POSITIVE_Y_SHORT_VECTOR`. -/
def flagYSame (f : Nat) : Bool := f / 32 % 2 = 1

/-- The flags-unpacking `while` loop of `GlyfTable::try_parse`.  Each
iteration appends at least one flag, so `n` iterations suffice; `fuel`
starts at `n` and the fuel-exhausted branch is unreachable. -/
def unpackFlags (bytes : List Nat) (n : Nat) :
    Nat → Nat → List Nat → P (List Nat × Nat)
  | 0, offset, acc => pure (acc, offset)
  | fuel + 1, offset, acc =>
    if acc.length < n then do
      if offset ≥ bytes.length then perr .Truncated .GlyfTable
      else do
        let flag ← liftRead (bytes.get? offset)
        if flagRepeat flag then
          if offset + 1 ≥ bytes.length then perr .Truncated .GlyfTable
          else do
            let cnt ← liftRead (bytes.get? (offset + 1))
            unpackFlags bytes n fuel (offset + 2) (acc ++ List.replicate (cnt + 1) flag)
        else unpackFlags bytes n fuel (offset + 1) (acc ++ [flag])
    else pure (acc, offset)

/-- The coordinate-decoding loop of `GlyfTable::try_parse`, shared between
the x pass (`short` = `X_SHORT_VECTOR`, `same` = the same-or-positive bit)
and the y pass. -/
def decodeCoords (bytes : List Nat) (short same : Nat → Bool)
    (flags : List Nat) (offset0 : Nat) : P (List Int × Nat) := do
  let st ← flags.foldlM (fun (st : List Int × Int × Nat) flag => do
    let (acc, prev, off) := st
    if short flag then
      if off ≥ bytes.length then perr .Truncated .GlyfTable
      else do
        let b ← liftRead (bytes.get? off)
        let d : Int := if same flag then (b : Int) else -(b : Int)
        let v := prev + d
        pure (acc ++ [v], v, off + 1)
    else
      if same flag then pure (acc ++ [prev], prev, off)
      else
        if off + 2 > bytes.length then perr .Truncated .GlyfTable
        else do
          let d ← liftRead (readI16? bytes off)
          let v := prev + d
          pure (acc ++ [v], v, off + 2)) ([], 0, offset0)
  pure (st.1, st.2.2)

/-- The per-contour point assembly of `GlyfTable::try_parse`: points of
`[rs, re)`, materializing an on-curve midpoint between two adjacent
control points (which the snapshot's decoder stores into the point list
itself). -/
def glyfContourPoints (flags : List Nat) (xs ys : List Int) (rs re : Nat) :
    P (List OutlinePoint) :=
  (List.range' rs (re - rs)).foldlM (fun acc k => do
    let fk ← liftRead (flags.get? k)
    let xk ← liftRead (xs.get? k)
    let yk ← liftRead (ys.get? k)
    if k > rs ∧ k < re - 1 ∧ ¬flagOnCurve fk then do
      let fk1 ← liftRead (flags.get? (k + 1))
      if ¬flagOnCurve fk1 then do
        let xk1 ← liftRead (xs.get? (k + 1))
        let yk1 ← liftRead (ys.get? (k + 1))
        pure (acc ++ [⟨(xk : ℚ), (yk : ℚ), true⟩,
          ⟨((xk : ℚ) + (xk1 : ℚ)) / 2, ((yk : ℚ) + (yk1 : ℚ)) / 2, false⟩])
      else pure (acc ++ [⟨(xk : ℚ), (yk : ℚ), ¬flagOnCurve fk⟩])
    else pure (acc ++ [⟨(xk : ℚ), (yk : ℚ), ¬flagOnCurve fk⟩])) []

/-- Simple-glyph decoding of `GlyfTable::try_parse` (`glyf_table.rs`),
assembled into the flat `Outline` form: per-contour point lists are
flattened, with their index ranges recorded, and the curve/segment
assembly becomes the geometry list. -/
def glyfParseSimple (bytes : List Nat) (glyph_offset number_of_contours : Nat)
    (x_min y_min x_max y_max : Int) : P Outline := do
  let epoc_end := glyph_offset + 10 + number_of_contours * 2
  if epoc_end + 2 > bytes.length then perr .Truncated .GlyfTable
  else do
    let end_pts ← (List.range number_of_contours).mapM
      (fun j => liftRead (readU16? bytes (glyph_offset + 10 + j * 2)))
    let instruction_length ← liftRead (readU16? bytes epoc_end)
    let instructions_end := epoc_end + 2 + instruction_length * 2
    let lastEp ← liftRead end_pts.getLast?
    let number_of_points := lastEp + 1
    let fl ← unpackFlags bytes number_of_points number_of_points instructions_end []
    let (flags, flag_offset) := fl
    let xr ← decodeCoords bytes flagXShort flagXSame flags flag_offset
    let (xs, xoff) := xr
    let yr ← decodeCoords bytes flagYShort flagYSame flags xoff
    let (ys, _) := yr
    let st ← (List.range number_of_contours).foldlM
      (fun (st : List OutlinePoint × List (Nat × Nat) × List OutlineGeom) j => do
        let (flat, ranges, geoms) := st
        let range_start ← if j = 0 then pure 0
          else (liftRead (end_pts.get? (j - 1))).map (· + 1)
        let rangeEndBase ← liftRead (end_pts.get? j)
        let range_end := rangeEndBase + 1
        if range_start ≥ range_end then perr .Malformed .GlyfTable
        else do
          let pts ← glyfContourPoints flags xs ys range_start range_end
          match contourGeometry pts with
          | none => perr .Malformed .GlyfTable
          | some g =>
            pure (flat ++ pts, ranges ++ [(flat.length, flat.length + pts.length)],
              geoms ++ g)) ([], [], [])
    pure ⟨(x_min : ℚ), (y_min : ℚ), (x_max : ℚ), (y_max : ℚ),
      st.1, st.2.1, st.2.2, number_of_points⟩

/-- The `glyf` table: a map from glyph id to outline, from
`glyf_table.rs`. -/
structure GlyfTable where
  outlines : List (Nat × Outline)
deriving DecidableEq, Repr

/-- Source `GlyfTable::try_parse` (`glyf_table.rs`): iterates `loca`
ranges; equal consecutive offsets mean no outline; positive contour count
is a simple glyph; zero or negative contour counts are skipped (empty or
composite). -/
def GlyfTable.tryParse (bytes : List Nat) (off : Nat) (loca : LocaTable) :
    P GlyfTable := do
  if loca.offsets.length < 2 then perr .Malformed .LocaTable
  else do
    let outlines ← (List.range (loca.offsets.length - 1)).foldlM
      (fun (outlines : List (Nat × Outline)) i => do
        let oi ← liftRead (loca.offsets.get? i)
        let oi1 ← liftRead (loca.offsets.get? (i + 1))
        if oi = oi1 then pure outlines
        else do
          let glyph_offset := off + oi
          if glyph_offset + 10 > bytes.length then perr .Truncated .GlyfTable
          else do
            let number_of_contours ← liftRead (readI16? bytes glyph_offset)
            let x_min ← liftRead (readI16? bytes (glyph_offset + 2))
            let y_min ← liftRead (readI16? bytes (glyph_offset + 4))
            let x_max ← liftRead (readI16? bytes (glyph_offset + 6))
            let y_max ← liftRead (readI16? bytes (glyph_offset + 8))
            if number_of_contours > 0 then do
              let outline ← glyfParseSimple bytes glyph_offset
                number_of_contours.toNat x_min y_min x_max y_max
              pure (btreeInsert outlines i outline)
            else pure outlines) []
    pure ⟨outlines⟩

/-! ## gvar parser -/

/-- The bytes `l[a..b]`, or `none` when the slice is out of range (panic
in Rust). -/
def sliceRange? (l : List Nat) (a b : Nat) : Option (List Nat) :=
  if a ≤ b ∧ b ≤ l.length then some ((l.drop a).take (b - a)) else none

/-- Source `parse_packed_points` (`gvar_table.rs`): decodes the packed
point-number array, returning the cumulative point numbers and the number
of bytes consumed (kept exactly as the source computes it, including its
quirk of not advancing past a two-byte count).  Each loop iteration either
consumes a control byte or appends a point, so `2 * total + 3` fuel
suffices; the fuel-exhausted branch is unreachable. -/
def packedPointsLoop (bytes : List Nat) (total : Nat) :
    Nat → List Nat → Nat → Nat → Bool → Nat → P (List Nat × Nat)
  | 0, points, offset, _, _, _ => pure (points, offset)
  | fuel + 1, points, offset, remaining, words, last_point =>
    if remaining = 0 then
      if points.length = total then pure (points, offset)
      else if offset ≥ bytes.length then perr .Truncated .GvarTable
      else do
        let ctrl ← liftRead (bytes.get? offset)
        let remaining := ctrl % 128 + 1
        let words := ctrl ≥ 128
        if points.length + remaining > total then perr .Malformed .GvarTable
        else packedPointsLoop bytes total fuel points (offset + 1) remaining words last_point
    else if words then
      if offset + 2 > bytes.length then perr .Truncated .GvarTable
      else do
        let v ← liftRead (readU16? bytes offset)
        let lp := (last_point + v) % 65536
        packedPointsLoop bytes total fuel (points ++ [lp]) (offset + 2) (remaining - 1) words lp
    else
      if offset ≥ bytes.length then perr .Truncated .GvarTable
      else do
        let v ← liftRead (bytes.get? offset)
        let lp := (last_point + v) % 65536
        packedPointsLoop bytes total fuel (points ++ [lp]) (offset + 1) (remaining - 1) words lp

/-- Source `parse_packed_points` (`gvar_table.rs`), entry point. -/
def parsePackedPoints (bytes : List Nat) : P (List Nat × Nat) := do
  if 1 > bytes.length then perr .Truncated .GvarTable
  else do
    let b0 ← liftRead (bytes.get? 0)
    if b0 ≥ 128 then
      if 2 > bytes.length then perr .Truncated .GvarTable
      else do
        let b1 ← liftRead (bytes.get? 1)
        let total := (b0 % 128) * 256 + b1
        if total = 0 then pure ([], 0)
        else packedPointsLoop bytes total (2 * total + 3) [] 0 0 false 0
    else
      let total := b0
      if total = 0 then pure ([], 1)
      else packedPointsLoop bytes total (2 * total + 3) [] 1 0 false 0

/-- Source `parse_packed_deltas` (`gvar_table.rs`): the run-length loop.
Each iteration consumes a control byte or appends a delta, and a run is at
most 64 long, so `2 * count * 2 + 200` fuel suffices; the fuel-exhausted
branch is unreachable. -/
def packedDeltasLoop (bytes : List Nat) (count_x2 : Nat) :
    Nat → List Int → Nat → Bool → Bool → Nat → P (List Int)
  | 0, deltas, _, _, _, _ => pure deltas
  | fuel + 1, deltas, offset, are_zero, are_words, remaining =>
    if remaining = 0 then
      if deltas.length > count_x2 then perr .Malformed .GvarTable
      else if deltas.length = count_x2 then pure deltas
      else if offset + 1 > bytes.length then perr .Truncated .GvarTable
      else do
        let ctrl ← liftRead (bytes.get? offset)
        packedDeltasLoop bytes count_x2 fuel deltas (offset + 1)
          (ctrl ≥ 128) (ctrl % 128 ≥ 64) (ctrl % 64 + 1)
    else if are_zero then
      packedDeltasLoop bytes count_x2 fuel (deltas ++ [0]) offset are_zero are_words
        (remaining - 1)
    else if are_words then
      if offset + 2 > bytes.length then perr .Truncated .GvarTable
      else do
        let v ← liftRead (readI16? bytes offset)
        packedDeltasLoop bytes count_x2 fuel (deltas ++ [v]) (offset + 2) are_zero
          are_words (remaining - 1)
    else
      if offset + 1 > bytes.length then perr .Truncated .GvarTable
      else do
        let b ← liftRead (bytes.get? offset)
        packedDeltasLoop bytes count_x2 fuel (deltas ++ [toSigned 8 b]) (offset + 1)
          are_zero are_words (remaining - 1)

/-- Source `parse_packed_deltas` (`gvar_table.rs`): the first `count`
decoded words are x deltas, the next `count` are y deltas. -/
def parsePackedDeltas (bytes : List Nat) (count : Nat) : P (List (Int × Int)) := do
  let deltas ← packedDeltasLoop bytes (count * 2) (count * 4 + 200) [] 0 false false 0
  pure ((deltas.take count).zip (deltas.drop count))

/-- One iteration of the per-tuple loop of `GvarTable::try_parse`
(`gvar_table.rs`): reads a tuple-variation header, the optional embedded
peak and intermediate region, the optional private point numbers and the
packed deltas, then performs the source's sanity checks.  State:
(header offset into `gvd`, offset into `serialized_data`, tuples so
far). -/
def gvarParseTuple (gvd serialized_data : List Nat) (axis_count : Nat)
    (shared_tuples : List ℚ) (shared_point_numbers : List Nat)
    (num_packed_points : Nat) (st : Nat × Nat × List TupleVariation) :
    P (Nat × Nat × List TupleVariation) := do
  let (tvho0, serialized_offset, tuples) := st
  if tvho0 + 4 > gvd.length then perr .Truncated .GvarTable
  else do
    let variation_data_size ← liftRead (readU16? gvd tvho0)
    let tuple_index_raw ← liftRead (readU16? gvd (tvho0 + 2))
    let tvho1 := tvho0 + 4
    let has_embedded_peak := tuple_index_raw ≥ 0x8000
    let has_intermediate := tuple_index_raw / 0x4000 % 2 = 1
    let has_private_points := tuple_index_raw / 0x2000 % 2 = 1
    let tuple_index := tuple_index_raw % 0x1000
    let pk ← if has_embedded_peak then
        if tvho1 + 2 * axis_count > gvd.length then perr .Truncated .GvarTable
        else do
          let peak ← (List.range axis_count).mapM
            (fun k => liftRead (readF2Dot14? gvd (tvho1 + 2 * k)))
          pure (peak, tvho1 + 2 * axis_count)
      else do
        let ti := tuple_index * axis_count
        if ti + axis_count > shared_tuples.length then perr .Malformed .GvarTable
        else pure ((shared_tuples.drop ti).take axis_count, tvho1)
    let (peak_tuple, tvho2) := pk
    let im ← if has_intermediate then
        if tvho2 + 4 * axis_count > gvd.length then perr .Truncated .GvarTable
        else do
          let start_tuple ← (List.range axis_count).mapM
            (fun k => liftRead (readF2Dot14? gvd (tvho2 + 2 * k)))
          let end_tuple ← (List.range axis_count).mapM
            (fun k => liftRead (readF2Dot14? gvd (tvho2 + 2 * axis_count + 2 * k)))
          pure (some (⟨start_tuple, end_tuple⟩ : IntermediateTuples),
            tvho2 + 4 * axis_count)
      else pure (none, tvho2)
    let (intermediate_tuples, tvho3) := im
    let pp ← if has_private_points then
        if serialized_offset ≥ serialized_data.length then perr .Truncated .GvarTable
        else do
          let window ← liftRead (sliceRange? serialized_data serialized_offset
            (serialized_offset + variation_data_size))
          parsePackedPoints window
      else pure (shared_point_numbers, 0)
    let (point_numbers, delta_offset) := pp
    if (point_numbers.getLast?).getD 0 > num_packed_points + 4 then
      perr .Malformed .GvarTable
    else if serialized_offset + delta_offset ≥ serialized_data.length then
      perr .Malformed .GvarTable
    else do
      let delta_count := if point_numbers.isEmpty then num_packed_points + 4
        else point_numbers.length
      let dwindow ← liftRead (sliceRange? serialized_data
        (serialized_offset + delta_offset) (serialized_offset + variation_data_size))
      let deltas ← parsePackedDeltas dwindow delta_count
      let so1 := serialized_offset + variation_data_size
      let intermOk := match intermediate_tuples with
        | some interm => ((peak_tuple.zip (interm.start.zip interm.stop)).all
            (fun pse =>
              ¬(pse.2.1 > pse.2.2 ∨ pse.1 < pse.2.1 ∨ pse.1 > pse.2.2
                ∨ pse.2.1 < -1 ∨ pse.2.1 > 1 ∨ pse.2.2 < -1 ∨ pse.2.2 > 1)))
        | none => true
      if intermOk = false then perr .Malformed .GvarTable
      else if (peak_tuple.all (fun p => decide (-1 ≤ p ∧ p ≤ 1))) = false then
        perr .Malformed .GvarTable
      else if (point_numbers.all (fun pt => decide (pt < num_packed_points + 4))) = false then
        perr .Malformed .GvarTable
      else
        pure (tvho3, so1,
          tuples ++ [⟨peak_tuple, intermediate_tuples, point_numbers, deltas⟩])

/-- Source `GvarTable::try_parse` (`gvar_table.rs`). -/
def GvarTable.tryParse (bytes : List Nat) (off : Nat) (glyf : GlyfTable) :
    P GvarTable := do
  if off + 20 > bytes.length then perr .Truncated .GvarTable
  else do
    let major_version ← liftRead (readU16? bytes off)
    let minor_version ← liftRead (readU16? bytes (off + 2))
    if major_version ≠ 1 ∨ minor_version ≠ 0 then perr .UnexpectedVersion .GvarTable
    else do
      let axis_count ← liftRead (readU16? bytes (off + 4))
      let share_tuple_count ← liftRead (readU16? bytes (off + 6))
      let sto ← liftRead (readU32? bytes (off + 8))
      let shared_tuples_offset := sto + off
      let glyph_count ← liftRead (readU16? bytes (off + 12))
      let flags ← liftRead (readU16? bytes (off + 14))
      let gvo ← liftRead (readU32? bytes (off + 16))
      let glyph_variation_data_array_offset := gvo + off
      let offs ← if flags % 2 = 1 then
          if off + 20 + (glyph_count + 1) * 4 > bytes.length then
            perr .Truncated .GvarTable
          else (List.range (glyph_count + 1)).mapM (fun i => do
            let v ← liftRead (readU32? bytes (off + 20 + i * 4))
            pure (glyph_variation_data_array_offset + v))
        else
          if off + 20 + (glyph_count + 1) * 2 > bytes.length then
            perr .Truncated .GvarTable
          else (List.range (glyph_count + 1)).mapM (fun i => do
            let v ← liftRead (readU16? bytes (off + 20 + i * 2))
            pure (glyph_variation_data_array_offset + v * 2))
      if shared_tuples_offset + share_tuple_count * 2 * axis_count > bytes.length then
        perr .Truncated .GvarTable
      else do
        let shared_tuples ← (List.range (share_tuple_count * axis_count)).mapM
          (fun i => liftRead (readF2Dot14? bytes (shared_tuples_offset + i * 2)))
        let glyph_variations ← (List.range glyph_count).foldlM
          (fun (gvs : List (Nat × GlyphVariation)) i => do
            match btreeGet? glyf.outlines i with
            | none => pure gvs
            | some outline => do
              let s ← liftRead (offs.get? i)
              let e ← liftRead (offs.get? (i + 1))
              if s > bytes.length ∨ e > bytes.length ∨ s > e then
                perr .Malformed .GvarTable
              else if s = e then pure gvs
              else do
                let gvd := (bytes.drop s).take (e - s)
                if 4 > gvd.length then perr .Truncated .GvarTable
                else do
                  let tvc_raw ← liftRead (readU16? gvd 0)
                  let serialized_offset0 ← liftRead (readU16? gvd 2)
                  let has_shared_point_numbers := tvc_raw ≥ 0x8000
                  let tuple_variation_count := tvc_raw % 0x1000
                  if serialized_offset0 ≥ gvd.length then perr .Truncated .GvarTable
                  else do
                    let serialized_data := gvd.drop serialized_offset0
                    let sp ← if has_shared_point_numbers then
                        parsePackedPoints serialized_data
                      else pure ([], 0)
                    let (shared_point_numbers, so0) := sp
                    let st ← (List.range tuple_variation_count).foldlM
                      (fun st _ => gvarParseTuple gvd serialized_data axis_count
                        shared_tuples shared_point_numbers outline.num_packed_points st)
                      (4, so0, [])
                    pure (btreeInsert gvs i ⟨st.2.2⟩))
          []
        pure ⟨major_version, minor_version, axis_count, glyph_variations⟩

/-! ## Font assembly -/

/-- The assembled font, from `font.rs`.  The source struct has exactly the
fields `cmap` through `gvar`; `avar` and `hvar` are Modelled from the
spec: `util/variation.rs` calls the accessors `font.avar_table()` /
`font.hvar_table()`, which the snapshot's `font.rs` does not define, and
the spec lists both as optional tables of the font value.  `fromBytes`
(fully present in the source) never parses either, leaving them `none`. -/
structure Font where
  cmap : CmapTable
  head : HeadTable
  hhea : HheaTable
  hmtx : HmtxTable
  maxp : MaxpTable
  name : NameTable
  glyf : GlyfTable
  fvar : Option FvarTable
  gvar : Option GvarTable
  avar : Option AvarTable
  hvar : Option HvarTable
deriving DecidableEq, Repr

/-- The per-tag indices gathered by the table-record loop of
`Font::from_bytes`; the last record with a tag wins. -/
structure TagIndices where
  cmapIdx : Option Nat := none
  headIdx : Option Nat := none
  hheaIdx : Option Nat := none
  hmtxIdx : Option Nat := none
  maxpIdx : Option Nat := none
  nameIdx : Option Nat := none
  locaIdx : Option Nat := none
  glyfIdx : Option Nat := none
  fvarIdx : Option Nat := none
  gvarIdx : Option Nat := none
deriving DecidableEq, Repr

/-- The tag-matching loop of `Font::from_bytes` (`font.rs`); note there is
no arm for "avar" or "hvar": those records fall into the catch-all and
are ignored. -/
def collectTagIndices (records : List TableRecord) : TagIndices :=
  (records.enum).foldl (fun acc (ir : Nat × TableRecord) =>
    let (i, r) := ir
    if r.table_tag = tagCMAP then { acc with cmapIdx := some i }
    else if r.table_tag = tagHEAD then { acc with headIdx := some i }
    else if r.table_tag = tagHHEA then { acc with hheaIdx := some i }
    else if r.table_tag = tagHMTX then { acc with hmtxIdx := some i }
    else if r.table_tag = tagMAXP then { acc with maxpIdx := some i }
    else if r.table_tag = tagLOCA then { acc with locaIdx := some i }
    else if r.table_tag = tagGLYF then { acc with glyfIdx := some i }
    else if r.table_tag = tagFVAR then { acc with fvarIdx := some i }
    else if r.table_tag = tagNAME then { acc with nameIdx := some i }
    else if r.table_tag = tagGVAR then { acc with gvarIdx := some i }
    else acc) {}

/-- The per-table slicing step of `Font::from_bytes`: bounds-check the
record's `[offset, offset+length)` range and cut the table's bytes. -/
def tableSlice (bytes : List Nat) (td : TableDirectory) (i : Nat)
    (src : ImtErrorSource) : P (List Nat) := do
  let r ← liftRead (td.table_records.get? i)
  if r.offset + r.length > bytes.length then perr .Truncated src
  else pure ((bytes.drop r.offset).take r.length)

/-- The opening TTC rejection of `Font::from_bytes` (`font.rs`): only an
`UnexpectedTag` failure of `TTCHeader::try_parse` lets parsing proceed;
success or any other error is `CollectionNotSupported`, and a panic
propagates. -/
def checkNotCollection (bytes : List Nat) : P Unit :=
  match TTCHeader.tryParse bytes with
  | .error (.err e) =>
    if e.kind = .UnexpectedTag then pure ()
    else perr .CollectionNotSupported .FontData
  | .error .oob => .error .oob
  | .ok _ => perr .CollectionNotSupported .FontData

/-- The per-required-table block of `Font::from_bytes`: a missing record
is `MissingTable`, otherwise the table's bytes are sliced and parsed. -/
def parseRequiredTable {α : Type} (bytes : List Nat) (td : TableDirectory)
    (idx : Option Nat) (src : ImtErrorSource) (f : List Nat → P α) : P α :=
  match idx with
  | some i => do
    let s ← tableSlice bytes td i src
    f s
  | none => perr .MissingTable src

/-- The per-optional-table block of `Font::from_bytes`: absent record
means an absent table. -/
def parseOptionalTable {α : Type} (bytes : List Nat) (td : TableDirectory)
    (idx : Option Nat) (src : ImtErrorSource) (f : List Nat → P α) :
    P (Option α) :=
  match idx with
  | some i => do
    let s ← tableSlice bytes td i src
    (f s).map some
  | none => pure none

/-- Source `Font::from_bytes` (`font.rs`).  Only the listed tables are
parsed; `avar`/`hvar` directory records are ignored by the tag loop, and
the assembled `Font` carries no data for them (their fields are always
`none`). -/
def Font.fromBytes (bytes : List Nat) : P Font := do
  checkNotCollection bytes
  let td ← TableDirectory.tryParse bytes 0
  let idx := collectTagIndices td.table_records
  let cmap ← parseRequiredTable bytes td idx.cmapIdx .CmapTable
    (fun s => CmapTable.tryParse s 0)
  let head ← parseRequiredTable bytes td idx.headIdx .HeadTable
    (fun s => HeadTable.tryParse s 0)
  let hhea ← parseRequiredTable bytes td idx.hheaIdx .HheaTable
    (fun s => HheaTable.tryParse s 0)
  let maxp ← parseRequiredTable bytes td idx.maxpIdx .MaxpTable
    (fun s => MaxpTable.tryParse s 0)
  let name ← parseRequiredTable bytes td idx.nameIdx .NameTable
    (fun s => NameTable.tryParse s 0)
  let hmtx ← parseRequiredTable bytes td idx.hmtxIdx .HmtxTable
    (fun s => HmtxTable.tryParse s 0 maxp hhea)
  let loca ← parseRequiredTable bytes td idx.locaIdx .LocaTable
    (fun s => LocaTable.tryParse s 0 head maxp)
  let glyf ← parseRequiredTable bytes td idx.glyfIdx .GlyfTable
    (fun s => GlyfTable.tryParse s 0 loca)
  let fvar ← parseOptionalTable bytes td idx.fvarIdx .FvarTable
    (fun s => FvarTable.tryParse s 0)
  let gvar ← parseOptionalTable bytes td idx.gvarIdx .GvarTable
    (fun s => GvarTable.tryParse s 0 glyf)
  pure ⟨cmap, head, hhea, hmtx, maxp, name, glyf, fvar, gvar, none, none⟩

/-! ## Variation utilities (`util/variation.rs`) -/

/-- Utility-layer errors, from `util/mod.rs`.  `MalformedOutline` is
Modelled from the spec: `util/variation.rs` and `raster/mod.rs` both use
it though the snapshot's `util/mod.rs` enum lacks it. -/
inductive ImtUtilError where
  | NoData
  | InvalidCoords
  | MissingTable
  | MalformedFont
  | MalformedOutline
deriving DecidableEq, Repr

/-- Outcome of a variation function: an `ImtUtilError` or a panic. -/
inductive UFail where
  | uerr (e : ImtUtilError)
  | oob
deriving DecidableEq, Repr

/-- Result monad of the variation utilities. -/
abbrev UtilP (α : Type) := Except UFail α

/-- Lift an index access: `none` is a Rust index panic. -/
def uliftRead {α : Type} : Option α → UtilP α
  | some a => .ok a
  | none => .error .oob

/-- Throw an `ImtUtilError`. -/
def uthrow {α : Type} (e : ImtUtilError) : UtilP α := .error (.uerr e)

/-- Rust `f32::clamp`. -/
def rclamp (lo hi q : ℚ) : ℚ := max lo (min hi q)

/-- The avar remapping step of `normalize_axis_coords`
(`util/variation.rs` lines 35-68), applied to an already
linearly-normalized coordinate when the axis has a segment map with more
than three entries.  The interpolation expression is kept exactly as the
source writes it, including the division
`maps[k+1].from_coord / maps[k].from_coord` in the denominator. -/
def applyAvarSegment (seg : Option SegmentMap) (c : ℚ) : UtilP ℚ :=
  match seg with
  | none => pure c
  | some seg =>
    if seg.axis_value_maps.length > 3 then
      let maps := seg.axis_value_maps
      let k? := maps.enum.foldl
        (fun (acc : Option Nat) (jv : Nat × AxisValueMap) =>
          if c > jv.2.from_coord then some jv.1 else acc) none
      match k? with
      | none => uthrow .MalformedFont
      | some k =>
        if k = maps.length - 1 then uthrow .MalformedFont
        else
          let mk := maps.getD k ⟨0, 0⟩
          let mk1 := maps.getD (k + 1) ⟨0, 0⟩
          if c = mk.from_coord then pure mk.to_coord
          else if c = mk1.from_coord then pure mk1.to_coord
          else pure (rclamp (-1) 1
            ((((mk1.from_coord - c) / (mk1.from_coord / mk.from_coord))
              * (mk1.to_coord - mk.to_coord)) + mk.to_coord))
    else pure c

/-- The per-axis body of `normalize_axis_coords` (`util/variation.rs`
lines 13-69): clamp to the axis extremes, map linearly onto `(-1, 0)` or
`(0, +1)` around the default (the exact default maps to 0 and skips the
avar step), then apply the avar segment map when present. -/
def normalizeAxisCoord (axis : VariationAxisRecord) (seg : Option SegmentMap)
    (c : ℚ) : UtilP ℚ :=
  if c ≤ axis.min_value then pure (-1)
  else if c ≥ axis.max_value then pure 1
  else if c < axis.default_value then
    applyAvarSegment seg
      ((c - axis.default_value) / (axis.default_value - axis.min_value))
  else if c > axis.default_value then
    applyAvarSegment seg
      ((c - axis.default_value) / (axis.max_value - axis.default_value))
  else pure 0

/-- Source `normalize_axis_coords` (`util/variation.rs`).  Returns the
rewritten coordinate vector (the Rust function mutates it in place).  The
avar segment map for axis `i` is `avar.segment_maps[i]`, an unchecked
index in the source (`oob` on a too-short segment-map list). -/
def normalize_axis_coords (font : Font) (coords : List ℚ) : UtilP (List ℚ) := do
  let fvar ← match font.fvar with
    | some f => pure f
    | none => uthrow .MissingTable
  if coords.length ≠ fvar.axes.length then uthrow .InvalidCoords
  else
    coords.enum.mapM (fun ic => do
      let (i, c) := ic
      let axis ← uliftRead (fvar.axes.get? i)
      let seg ← match font.avar with
        | some avar => (uliftRead (avar.segment_maps.get? i)).map some
        | none => pure none
      normalizeAxisCoord axis seg c)

/-- The region-scaler loop of `advance_width` (`util/variation.rs` lines
117-153) for one region: `none` when the delta row is skipped
(`continue 'delta_data`) or when every axis was ignored (peak 0), in
which case the source adds nothing; otherwise the accumulated scaler. -/
def itemDeltaScaler : List (ℚ × RegionAxisCoordinates) → ℚ → Bool → Option ℚ
  | [], scaler, all_ignored => if all_ignored then none else some scaler
  | (coord, ax) :: rest, scaler, all_ignored =>
    if ax.peak = 0 then itemDeltaScaler rest scaler all_ignored
    else if ax.peak = coord then itemDeltaScaler rest scaler false
    else if coord < ax.start ∨ coord > ax.stop then none
    else if coord = ax.start ∨ coord = ax.stop then none
    else if coord < ax.peak then
      itemDeltaScaler rest (scaler * ((coord - ax.start) / (ax.peak - ax.start))) false
    else
      itemDeltaScaler rest (scaler * ((ax.stop - coord) / (ax.stop - ax.peak))) false

/-- The tail of `advance_width` (`util/variation.rs` lines 105-155) after
the `(outer_index, inner_index)` pair has been resolved: bounds-check the
store, then fold the delta row against the region scalers. -/
def advanceWidthCont (hvar : HvarTable) (coords : List ℚ) (oi : Nat × Nat) :
    UtilP ℚ := do
  let (outer_index, inner_index) := oi
  if outer_index ≥ hvar.item_variation_store.item_data.length then return 0
  let item_data ← uliftRead (hvar.item_variation_store.item_data.get? outer_index)
  if inner_index ≥ item_data.delta_sets.length then return 0
  let dset ← uliftRead (item_data.delta_sets.get? inner_index)
  dset.data.enum.foldlM (fun (total : ℚ) idd => do
    let (i, dd) := idd
    let ri ← uliftRead (item_data.region_indexes.get? i)
    let region ← uliftRead (hvar.item_variation_store.regions.get? ri)
    match itemDeltaScaler (coords.zip region.axes) 1 true with
    | none => pure total
    | some scaler => pure (total + scaler * dd.asF32)) 0

/-- Source `advance_width` (`util/variation.rs`): the hvar advance-width
delta at the given normalized coordinates.  With an advance
`DeltaSetIndexMap` present the source clamps the glyph index to the map
and reads `map_data[map_index]`; on an empty map that read (after the
`len - 1` underflow) is out of bounds, modelled as `oob`. -/
def advance_width (font : Font) (glyph_index : Nat) (coords : List ℚ) :
    UtilP ℚ := do
  if coords.any (fun c => decide (c < -1 ∨ c > 1)) then uthrow .InvalidCoords
  else do
    let hvar ← match font.hvar with
      | some h => pure h
      | none => return 0
    if coords.length ≠ hvar.item_variation_store.axis_count then
      uthrow .InvalidCoords
    else do
      let oi ← match hvar.advance_map with
        | some im =>
          if im.map_data.length = 0 then (.error .oob : UtilP (Nat × Nat))
          else
            let map_index := if glyph_index ≥ im.map_data.length
              then im.map_data.length - 1 else glyph_index
            uliftRead (im.map_data.get? map_index)
        | none => pure (0, glyph_index)
      advanceWidthCont hvar coords oi

/-- Source `infer_delta` (`util/variation.rs`): the inferred delta for an
un-referenced point from its bracketing referenced points. -/
def infer_delta (px tx fx pd fd : ℚ) : ℚ :=
  if px = fx then (if pd = fd then pd else 0)
  else if tx ≤ min px fx then (if px < fx then pd else fd)
  else if tx ≥ max px fx then (if px > fx then pd else fd)
  else ((1 - (tx - px) / (fx - px)) * pd) + ((tx - px) / (fx - px)) * fd

/-- The per-tuple scaler loop of `outline_apply_gvar`
(`util/variation.rs` lines 183-231), over the enumerated coordinates with
the running scaler and the `tuple_applies` flag. -/
def tupleScalerGo (tuple : TupleVariation) :
    List (Nat × ℚ) → ℚ → Bool → UtilP (Option ℚ)
  | [], scaler, applies => pure (if applies then some scaler else none)
  | (axis_i, coord) :: rest, scaler, applies => do
    let peak ← uliftRead (tuple.peak.get? axis_i)
    if peak = 0 then tupleScalerGo tuple rest scaler applies
    else if peak = coord then tupleScalerGo tuple rest scaler true
    else match tuple.interm with
      | some interm => do
        let is ← uliftRead (interm.start.get? axis_i)
        let ie ← uliftRead (interm.stop.get? axis_i)
        if coord < is ∨ coord > ie then pure none
        else if coord = is ∨ coord = ie then pure none
        else if coord < peak then
          tupleScalerGo tuple rest (scaler * ((coord - is) / (peak - is))) true
        else tupleScalerGo tuple rest (scaler * ((ie - coord) / (ie - peak))) true
      | none =>
        if coord = 0 ∨ coord < min peak 0 ∨ coord > max peak 0 then pure none
        else tupleScalerGo tuple rest (scaler * (coord / peak)) true

/-- The tuple scaler of `outline_apply_gvar`: `none` when the tuple does
not apply (an axis rules it out, or every axis was ignored), otherwise
the product of the per-axis factors. -/
def tupleScaler (coords : List ℚ) (tuple : TupleVariation) : UtilP (Option ℚ) :=
  tupleScalerGo tuple coords.enum 1 false

/-- Add `d` into slot `i` of the delta accumulator (`point_deltas[i] +=`,
an index panic when out of range). -/
def pdAdd (pd : List (ℚ × ℚ)) (i : Nat) (d : ℚ × ℚ) : UtilP (List (ℚ × ℚ)) :=
  match pd.get? i with
  | some v => pure (pd.set i (v.1 + d.1, v.2 + d.2))
  | none => .error .oob

/-- Model of `points_in_range.binary_search_by(|(_, j)| j.cmp(&i))`:
`inl idx` when entry `idx` has second component `i`, otherwise `inr` of
the insertion point.  On a list sorted by the second component (which
`points_in_range` is, being a filtered enumeration of the non-decreasing
packed point numbers) this matches the Rust binary search; on duplicates
it returns the first match where Rust may return any. -/
def binSearchBy (l : List (Nat × Nat)) (i : Nat) : Sum Nat Nat :=
  match l.findIdx? (fun p => i ≤ p.2) with
  | some idx =>
    match l.get? idx with
    | some p => if p.2 = i then .inl idx else .inr idx
    | none => .inr idx
  | none => .inr l.length

/-- Accumulation of one applying tuple into the delta accumulator
(`util/variation.rs` lines 238-314): a tuple with no point list updates
every slot in order; otherwise each contour range gets the explicit
deltas of its referenced points, a single referenced point broadcast, or
`infer_delta` interpolation. -/
def applyTupleDeltas (tuple : TupleVariation) (scaler : ℚ) (o : Outline)
    (pd0 : List (ℚ × ℚ)) : UtilP (List (ℚ × ℚ)) := do
  if tuple.points.isEmpty then
    tuple.deltas.enum.foldlM (fun pd idv => do
      let (i, dv) := idv
      pdAdd pd i ((dv.1 : ℚ) * scaler, (dv.2 : ℚ) * scaler)) pd0
  else
    o.contours.foldlM (fun pd r => do
      let points_in_range := (tuple.points.enum.map (fun p => (p.1, p.2))).filter
        (fun p => decide (r.1 ≤ p.2 ∧ p.2 < r.2))
      if points_in_range.isEmpty then pure pd
      else if points_in_range.length = 1 then do
        let p0 ← uliftRead (points_in_range.get? 0)
        let dv ← uliftRead (tuple.deltas.get? p0.1)
        let dx := (dv.1 : ℚ) * scaler
        let dy := (dv.2 : ℚ) * scaler
        (List.range' r.1 (r.2 - r.1)).foldlM (fun pd i => pdAdd pd i (dx, dy)) pd
      else
        (List.range' r.1 (r.2 - r.1)).foldlM (fun pd i => do
          match binSearchBy points_in_range i with
          | .inl pir_i => do
            let pir ← uliftRead (points_in_range.get? pir_i)
            let dv ← uliftRead (tuple.deltas.get? pir.1)
            pdAdd pd i ((dv.1 : ℚ) * scaler, (dv.2 : ℚ) * scaler)
          | .inr pir_i => do
            let (prec_pir_i, foll_pir_i) :=
              if pir_i = 0 ∨ pir_i = points_in_range.length then
                (points_in_range.length - 1, 0)
              else (pir_i - 1, pir_i)
            let prec ← uliftRead (points_in_range.get? prec_pir_i)
            let foll ← uliftRead (points_in_range.get? foll_pir_i)
            let pprec ← uliftRead (o.points.get? prec.2)
            let pi ← uliftRead (o.points.get? i)
            let pfoll ← uliftRead (o.points.get? foll.2)
            let dprec ← uliftRead (tuple.deltas.get? prec.1)
            let dfoll ← uliftRead (tuple.deltas.get? foll.1)
            let dx := infer_delta pprec.x pi.x pfoll.x (dprec.1 : ℚ) (dfoll.1 : ℚ) * scaler
            let dy := infer_delta pprec.y pi.y pfoll.y (dprec.2 : ℚ) (dfoll.2 : ℚ) * scaler
            pdAdd pd i (dx, dy)) pd) pd0

/-- The tuple-accumulation phase of `outline_apply_gvar`: fold every
applying tuple's scaled deltas into a `points + 4`-slot accumulator. -/
def gvarAccumulate (gv : GlyphVariation) (o : Outline) (coords : List ℚ) :
    UtilP (List (ℚ × ℚ)) :=
  gv.tuples.foldlM (fun pd tuple => do
    match ← tupleScaler coords tuple with
    | none => pure pd
    | some scaler => applyTupleDeltas tuple scaler o pd)
    (List.replicate (o.points.length + 4) ((0 : ℚ), (0 : ℚ)))

/-- The finishing phase of `outline_apply_gvar` (`util/variation.rs`
lines 317-333): add accumulator slot `i` to point `i` for
`i < outline.points.len()` — the trailing (phantom) slots are discarded —
then rebuild the outline, mapping a rebuild failure to
`MalformedOutline`. -/
def gvarFinish (o : Outline) (ds : List (ℚ × ℚ)) : UtilP Outline :=
  let pts := o.points.enum.map (fun ip =>
    match ds.get? ip.1 with
    | some d => (⟨ip.2.x + d.1, ip.2.y + d.2, ip.2.control⟩ : OutlinePoint)
    | none => ip.2)
  match Outline.rebuild { o with points := pts } with
  | some o2 => pure o2
  | none => uthrow .MalformedOutline

/-- Source `outline_apply_gvar` (`util/variation.rs`): validate the
coordinates, look up the glyph's gvar data, accumulate every applying
tuple's deltas, and add the first `points.len()` accumulator slots into
the outline, rebuilding it.  Returns the updated outline (the Rust
function mutates it in place). -/
def outline_apply_gvar (font : Font) (glyph_index : Nat) (o : Outline)
    (coords : List ℚ) : UtilP Outline := do
  if coords.any (fun c => decide (c < -1 ∨ c > 1)) then uthrow .InvalidCoords
  else do
    let gvar ← match font.gvar with
      | some g => pure g
      | none => uthrow .MissingTable
    if coords.length ≠ gvar.axis_count then uthrow .InvalidCoords
    else do
      let gv ← match btreeGet? gvar.glyph_variations glyph_index with
        | some gv => pure gv
        | none => uthrow .NoData
      let ds ← gvarAccumulate gv o coords
      gvarFinish o ds

/-! ## Raster layer (`raster/mod.rs`) -/

/-- Round a rational to the nearest integer, ties to even (the IEEE-754
default rounding used when encoding a value as binary32). -/
def rne (q : ℚ) : Int :=
  let f := ⌊q⌋
  let r := q - f
  if r < 1 / 2 then f
  else if r > 1 / 2 then f + 1
  else if f % 2 = 0 then f else f + 1

/-- Bit length of a natural number (fuel-structured so the kernel can
evaluate it). -/
def bitlenAux : Nat → Nat → Nat
  | 0, _ => 0
  | fuel + 1, n => if n = 0 then 0 else bitlenAux fuel (n / 2) + 1

/-- Bit length: `bitlen n = ⌈log2 (n+1)⌉`. -/
def bitlen (n : Nat) : Nat := bitlenAux n n

/-- The IEEE-754 binary32 bit pattern of a rational (`f32::to_bits` after
rounding the rational to the nearest representable `f32`, ties to even).
Zero encodes as 0, the pattern the source's fingerprint writes per absent
coordinate. -/
def f32bits (q : ℚ) : Nat :=
  if q = 0 then 0
  else
    let s : Nat := if q < 0 then 2 ^ 31 else 0
    let a := |q|
    let b : Int := (bitlen a.num.natAbs : Int) - (bitlen a.den : Int)
    let e : Int := if a < (2 : ℚ) ^ b then b - 1 else b
    if e + 127 ≥ 255 then s + 255 * 2 ^ 23
    else if e + 127 ≤ 0 then
      let n := (rne (a * (2 : ℚ) ^ (149 : Int))).toNat
      s + n
    else
      let n := (rne (a * (2 : ℚ) ^ (23 - e))).toNat
      if n = 2 ^ 24 then
        if e + 128 ≥ 255 then s + 255 * 2 ^ 23
        else s + (e + 128).toNat * 2 ^ 23
      else s + (e + 127).toNat * 2 ^ 23 + (n - 2 ^ 23)

/-- A hasher write stream: the `(bit width, value)` pairs fed to
`DefaultHasher` in order. -/
abbrev HashStream := List (Nat × Nat)

/-- Source `unique_id` (`raster/mod.rs` lines 180-202): write the glyph
id (16 bits), the size's bit pattern (32 bits), then one 32-bit word per
coordinate — the coordinate's bit pattern when coords are present, a zero
per axis otherwise — and finish with the hasher `H` (abstracting
`DefaultHasher`; every fact proved holds for any deterministic hash). -/
def unique_id (H : HashStream → Nat) (glyph_id : Nat) (size : ℚ)
    (coords : Option (List ℚ)) (axis_count : Nat) : Nat :=
  H ((16, glyph_id) :: (32, f32bits size) ::
    (match coords with
     | some cs => cs.map (fun c => (32, f32bits c))
     | none => List.replicate axis_count (32, 0)))

/-- Scaled-glyph evaluation errors, from `raster/mod.rs`. -/
inductive ScaledGlyphErr where
  | Missing
  | InvalidCoords
  | Malformed
deriving DecidableEq, Repr

/-- Outcome of `ScaledGlyph::evaluate`: an error or a panic. -/
inductive RFail where
  | rerr (e : ScaledGlyphErr)
  | oob
deriving DecidableEq, Repr

/-- Result monad of the raster layer. -/
abbrev RP (α : Type) := Except RFail α

/-- The scaled glyph, from `raster/mod.rs`. -/
structure ScaledGlyph where
  width : Nat
  height : Nat
  bearing_x : Int
  bearing_y : Int
  advance_w : Int
  outline : Option Outline
  unique_id : Nat
deriving DecidableEq, Repr

/-- Truncation toward zero (Rust `as` float-to-int semantics before
saturation). -/
def ratTrunc (q : ℚ) : Int := if q ≥ 0 then ⌊q⌋ else -⌊-q⌋

/-- Rust `as i16` on an `f32`: truncate, saturating to the i16 range. -/
def i16ofRat (q : ℚ) : Int := max (-32768) (min 32767 (ratTrunc q))

/-- Rust `as u32` on an `f32`: truncate, saturating to the u32 range. -/
def u32ofRat (q : ℚ) : Nat := (max 0 (min 4294967295 (ratTrunc q))).toNat

/-- Rust `f32::ceil`. -/
def rceil (q : ℚ) : ℚ := (⌈q⌉ : ℚ)

/-- Rust `f32::floor`. -/
def rfloor (q : ℚ) : ℚ := (⌊q⌋ : ℚ)

/-- Rust `f32::round`: nearest, ties away from zero. -/
def rround (q : ℚ) : ℚ :=
  if q ≥ 0 then ((⌊q + 1 / 2⌋ : Int) : ℚ) else -((⌊-q + 1 / 2⌋ : Int) : ℚ)

/-- The fingerprint computation of `ScaledGlyph::evaluate`
(`raster/mod.rs` lines 64-77): present coordinates hash with
`axis_count = 0`; absent coordinates hash a zero per fvar axis. -/
def evalUniqueId (H : HashStream → Nat) (font : Font)
    (coords : Option (List ℚ)) (glyph_id : Nat) (size : ℚ) : Nat :=
  match coords with
  | some cs => unique_id H glyph_id size (some cs) 0
  | none => unique_id H glyph_id size none
      (match font.fvar with
       | some fvar => fvar.axes.length
       | none => 0)

/-- Source `ScaledGlyph::evaluate` (`raster/mod.rs`).  `H` abstracts the
`DefaultHasher`.  The base advance is looked up as
`hor_metric.get(glyph_id)`, which only covers the first
`number_of_h_metrics` glyphs. -/
def ScaledGlyph.evaluate (H : HashStream → Nat) (font : Font)
    (coords0 : Option (List ℚ)) (coords_normalized : Bool) (glyph_id : Nat)
    (size : ℚ) : RP ScaledGlyph := do
  let coords ← match coords0 with
    | some cs =>
      if coords_normalized = false then
        match normalize_axis_coords font cs with
        | .ok cs2 => pure (some cs2)
        | .error (.uerr _) => .error (.rerr .InvalidCoords)
        | .error .oob => .error .oob
      else pure (some cs)
    | none => pure none
  let uid := evalUniqueId H font coords glyph_id size
  let hm ← match font.hmtx.hor_metric.get? glyph_id with
    | some hm => pure hm
    | none => .error (.rerr .Missing)
  let advance_w0 : ℚ := hm.advance_width
  let advance_w1 ← match coords with
    | some cs =>
      match advance_width font glyph_id cs with
      | .ok d => pure (advance_w0 + d)
      | .error (.uerr _) => .error (.rerr .InvalidCoords)
      | .error .oob => .error .oob
    | none => pure advance_w0
  let scaler := (1 / (font.head.units_per_em : ℚ)) * size
  let advance_w2 := advance_w1 * scaler
  match btreeGet? font.glyf.outlines glyph_id with
  | none =>
    pure ⟨0, 0, 0, 0, i16ofRat (rceil advance_w2), none, uid⟩
  | some outline0 => do
    let outline1 ← match coords with
      | some cs =>
        match outline_apply_gvar font glyph_id outline0 cs with
        | .error (.uerr .InvalidCoords) => .error (.rerr .InvalidCoords)
        | .error (.uerr .MalformedOutline) => .error (.rerr .Malformed)
        | .error .oob => .error .oob
        | .error (.uerr _) => pure outline0
        | .ok o => pure o
      | none => pure outline0
    let width_f := (outline1.x_max - outline1.x_min) * scaler
    let width_r := rceil width_f
    let width := u32ofRat width_r
    let scaler_hori := ((width_r / width_f) * scaler) / width_r
    let bearing_x := i16ofRat (rround (outline1.x_min * scaler))
    let advance_w3 := advance_w2 + (width_r - width_f)
    let v :=
      if outline1.y_max ≤ 0 ∨ outline1.y_min ≥ 0 then
        let height_f := (outline1.y_max - outline1.y_min) * scaler
        let y_max_r := rceil (outline1.y_max * scaler)
        let y_min_r := rfloor (outline1.y_min * scaler)
        let height_r := y_max_r - y_min_r
        let image_h := u32ofRat height_r
        let scaler_vert := ((height_r / height_f) * scaler) / (image_h : ℚ)
        (image_h, i16ofRat y_min_r, scaler_vert, scaler_vert)
      else
        let above_f := outline1.y_max * scaler
        let below_f := outline1.y_min * scaler
        let above_r := rceil above_f
        let below_r := rround below_f
        let image_h := u32ofRat (above_r - below_r)
        let scaler_above := ((above_r / above_f) * scaler) / (image_h : ℚ)
        let scaler_below := ((below_r / below_f) * scaler) / (image_h : ℚ)
        (image_h, i16ofRat below_r, scaler_above, scaler_below)
    let (height, bearing_y, scaler_above, scaler_below) := v
    let pts := outline1.points.map (fun p =>
      let x := (p.x - outline1.x_min) * scaler_hori
      let y := if p.y > 0 then 1 - ((p.y - outline1.y_min) * scaler_above)
        else 1 - ((p.y - outline1.y_min) * scaler_below)
      (⟨x, y, p.control⟩ : OutlinePoint))
    let outline3 ← match Outline.rebuild { outline1 with points := pts } with
      | some o => pure o
      | none => .error .oob
    pure ⟨width, height, bearing_x, bearing_y, i16ofRat (rceil advance_w3),
      some outline3, uid⟩

/-! ## Concrete inputs for the theorems -/

/-- A sample hasher instantiation (any function of the stream works; the
source's `DefaultHasher` is one such function). -/
def sampleHash : HashStream → Nat := fun s => s.length

/-- Parsed `head` table of the concrete font: version 1.0, magic valid,
`units_per_em` 1000, short loca format. -/
def head1000 : HeadTable :=
  ⟨1, 0, [0, 0, 0, 0], 0, 0x5f0f3cf5, 0, 1000, 0, 0, 0, 0, 0, 0, 0, 0, 0, 0, 0⟩

/-- Parsed `hhea` table with one full horizontal metric. -/
def hhea1 : HheaTable := ⟨1, 0, 0, 0, 0, 0, 0, 0, 0, 0, 0, 0, 0, 1⟩

/-- Parsed `maxp` v0.5 table with one glyph. -/
def maxp1 : MaxpTable := ⟨0x5000, 1, 0, 0, 0, 0, 0, 0, 0, 0, 0, 0, 0, 0, 0⟩

/-- Parsed `maxp` v0.5 table with two glyphs. -/
def maxp2 : MaxpTable := ⟨0x5000, 2, 0, 0, 0, 0, 0, 0, 0, 0, 0, 0, 0, 0, 0⟩

/-- An empty `cmap` table (version 0, no encoding records). -/
def cmap0 : CmapTable := ⟨0, []⟩

/-- An empty `name` table. -/
def name0 : NameTable := ⟨0, [], []⟩

/-- The byte buffer of a complete minimal font: sfnt 0x00010000, nine
table records (avar, cmap, glyf, head, hhea, hmtx, loca, maxp, name),
one glyph with no outline.  The avar record points at `[999, 1049)`,
entirely outside the 270-byte buffer, so parsing it would necessarily
fail — yet `Font::from_bytes` accepts the buffer because it ignores the
record. -/
def c1bytes : List Nat :=
  [0, 1, 0, 0, 0, 9, 0, 0, 0, 0, 0, 0]
  ++ [97, 118, 97, 114, 0, 0, 0, 0, 0, 0, 3, 231, 0, 0, 0, 50]
  ++ [99, 109, 97, 112, 0, 0, 0, 0, 0, 0, 0, 156, 0, 0, 0, 4]
  ++ [103, 108, 121, 102, 0, 0, 0, 0, 0, 0, 1, 14, 0, 0, 0, 0]
  ++ [104, 101, 97, 100, 0, 0, 0, 0, 0, 0, 0, 160, 0, 0, 0, 54]
  ++ [104, 104, 101, 97, 0, 0, 0, 0, 0, 0, 0, 214, 0, 0, 0, 36]
  ++ [104, 109, 116, 120, 0, 0, 0, 0, 0, 0, 1, 0, 0, 0, 0, 4]
  ++ [108, 111, 99, 97, 0, 0, 0, 0, 0, 0, 1, 4, 0, 0, 0, 4]
  ++ [109, 97, 120, 112, 0, 0, 0, 0, 0, 0, 0, 250, 0, 0, 0, 6]
  ++ [110, 97, 109, 101, 0, 0, 0, 0, 0, 0, 1, 8, 0, 0, 0, 6]
  ++ [0, 0, 0, 0]
  ++ ([0, 1, 0, 0] ++ [0, 0, 0, 0] ++ [0, 0, 0, 0] ++ [95, 15, 60, 245]
    ++ [0, 0] ++ [3, 232] ++ [0, 0, 0, 0, 0, 0, 0, 0]
    ++ [0, 0, 0, 0, 0, 0, 0, 0] ++ [0, 0, 0, 0, 0, 0, 0, 0]
    ++ [0, 0] ++ [0, 0] ++ [0, 0] ++ [0, 0] ++ [0, 0])
  ++ ([0, 1, 0, 0] ++ [0, 0, 0, 0, 0, 0, 0, 0, 0, 0, 0, 0, 0, 0, 0, 0, 0, 0, 0, 0]
    ++ [0, 0, 0, 0, 0, 0, 0, 0] ++ [0, 0] ++ [0, 1])
  ++ [0, 0, 80, 0, 0, 1]
  ++ [1, 244, 0, 0]
  ++ [0, 0, 0, 0]
  ++ [0, 0, 0, 0, 0, 0]

/-- The `Font` value `Font::from_bytes` produces on `c1bytes`. -/
def c1font : Font :=
  ⟨cmap0, head1000, hhea1, ⟨[⟨500, 0⟩], []⟩, maxp1, name0, ⟨[]⟩,
    none, none, none, none⟩

/-- An 8-byte buffer beginning with "OTTO". -/
def ottoBytes8 : List Nat := [79, 84, 84, 79, 0, 0, 0, 0]

/-- A 12-byte buffer beginning with "OTTO". -/
def ottoBytes12 : List Nat := [79, 84, 84, 79, 0, 0, 0, 0, 0, 0, 0, 0]

/-- A weight axis with user range `(-1, 0, 1)` (already in normalized
scale, so the linear step is the identity on `(0, 1)`). -/
def axisUnit : VariationAxisRecord := ⟨tagOf 119 103 104 116, -1, 0, 1, 0, 256⟩

/-- The "wght" axis of the spec's normalization example:
min 100, default 400, max 1000. -/
def axisWght : VariationAxisRecord := ⟨tagOf 119 103 104 116, 100, 400, 1000, 0, 256⟩

/-- An avar segment map with four entries (hence non-trivial for the
source): breakpoints (-1,-1), (0,0), (1/2,1/2), (1,1) — the identity
remap, in which every value is exactly representable in F2Dot14 and
f32. -/
def segHalf : SegmentMap := ⟨[⟨-1, -1⟩, ⟨0, 0⟩, ⟨1/2, 1/2⟩, ⟨1, 1⟩]⟩

/-- A font with one fvar axis and the `segHalf` avar segment map. -/
def c2font : Font :=
  ⟨cmap0, head1000, hhea1, ⟨[⟨500, 0⟩], []⟩, maxp1, name0, ⟨[]⟩,
    some ⟨1, 0, [axisUnit], []⟩, none, some ⟨1, 0, [segHalf]⟩, none⟩

/-- A single-axis tuple with peak 1/2 and no intermediate region. -/
def peakHalfTuple : TupleVariation := ⟨[1/2], none, [], []⟩

/-- A triangle outline (three on-curve points, one contour), with its
bounding box and geometry consistent with the points. -/
def triOutline : Outline :=
  ⟨0, 0, 2, 2,
    [⟨0, 0, false⟩, ⟨2, 0, false⟩, ⟨1, 2, false⟩],
    [(0, 3)],
    [.segment ⟨0, 0, false⟩ ⟨2, 0, false⟩, .segment ⟨2, 0, false⟩ ⟨1, 2, false⟩,
      .segment ⟨1, 2, false⟩ ⟨0, 0, false⟩],
    3⟩

/-- A single-axis gvar tuple whose intermediate region `[-1, 1]` strictly
straddles zero with peak 1 — accepted by the gvar parser's sanity checks
(`start ≤ peak ≤ end`, all within `[-1, 1]`) — targeting all points with
x-delta 2 on the three real points. -/
def straddleTuple : TupleVariation :=
  ⟨[1], some ⟨[-1], [1]⟩, [],
    [(2, 0), (2, 0), (2, 0), (0, 0), (0, 0), (0, 0), (0, 0)]⟩

/-- A font carrying `straddleTuple` as glyph 0's only gvar data. -/
def c7font : Font :=
  ⟨cmap0, head1000, hhea1, ⟨[⟨500, 0⟩], []⟩, maxp1, name0, ⟨[]⟩,
    none, some ⟨1, 0, 1, [(0, ⟨[straddleTuple]⟩)]⟩, none, none⟩

/-- A font whose `hmtx` has one full metric and one LSB-only tail entry
(`number_of_h_metrics` 1, `num_glyphs` 2): glyph 1 sits in the LSB-only
tail. -/
def tailFont : Font :=
  ⟨cmap0, head1000, hhea1, ⟨[⟨500, 10⟩], [20]⟩, maxp2, name0, ⟨[]⟩,
    none, none, none, none⟩

/-- A font with two fvar axes and no variation data tables. -/
def twoAxisFont : Font :=
  ⟨cmap0, head1000, hhea1, ⟨[⟨500, 0⟩], []⟩, maxp2, name0, ⟨[]⟩,
    some ⟨1, 0, [axisWght, axisWght], []⟩, none, none, none⟩

/-- Decidable equality for `Except` results. -/
instance {ε α : Type} [DecidableEq ε] [DecidableEq α] : DecidableEq (Except ε α) :=
  fun x y =>
    match x, y with
    | .ok a, .ok b =>
      if h : a = b then isTrue (by rw [h])
      else isFalse (by intro hh; injection hh; contradiction)
    | .error e, .error f =>
      if h : e = f then isTrue (by rw [h])
      else isFalse (by intro hh; injection hh; contradiction)
    | .ok _, .error _ => isFalse (by intro hh; cases hh)
    | .error _, .ok _ => isFalse (by intro hh; cases hh)

set_option maxRecDepth 40000

/-- Inversion of a successful `Except` bind. -/
theorem exceptBindOk {ε α β : Type} {x : Except ε α} {f : α → Except ε β} {b : β}
    (h : (x >>= f) = .ok b) : ∃ a, x = .ok a ∧ f a = .ok b := by
  cases x with
  | ok a => exact ⟨a, rfl, h⟩
  | error e =>
    simp only [Bind.bind, Except.bind] at h
    exact absurd h (by intro hh; cases hh)

/-! ## Claim theorems -/

/-- C1, counterexample: `c1bytes` is accepted by `Font::from_bytes` and
its table directory contains an avar record, yet the assembled `Font`
exposes no avar table (`avar = none`).  The avar record's byte range
`[999, 1049)` lies entirely outside the 270-byte buffer, so the table
cannot have been parsed-and-validated: parsing it would have failed
`Truncated`. -/
theorem c1_avar_ignored_counterexample :
    Font.fromBytes c1bytes = .ok c1font
    ∧ c1font.avar = none ∧ c1font.hvar = none
    ∧ (match TableDirectory.tryParse c1bytes 0 with
        | .ok td => td.table_records.any
            (fun r => decide (r.table_tag = tagAVAR
              ∧ r.offset + r.length > c1bytes.length))
        | _ => false) = true :=
  ⟨rfl, rfl, rfl, rfl⟩

/-- C1, amended: `Font::from_bytes` ignores `avar` and `hvar` directory
records entirely — every assembled `Font` exposes both as absent (only
`fvar` and `gvar` are parsed among the variation tables). -/
theorem c1_avar_hvar_never_assembled :
    ∀ (bytes : List Nat) (font : Font),
      Font.fromBytes bytes = .ok font → font.avar = none ∧ font.hvar = none := by
  intro bytes font h
  unfold Font.fromBytes at h
  obtain ⟨u, _, h⟩ := exceptBindOk h
  obtain ⟨td, _, h⟩ := exceptBindOk h
  obtain ⟨cmap, _, h⟩ := exceptBindOk h
  obtain ⟨head, _, h⟩ := exceptBindOk h
  obtain ⟨hhea, _, h⟩ := exceptBindOk h
  obtain ⟨maxp, _, h⟩ := exceptBindOk h
  obtain ⟨name, _, h⟩ := exceptBindOk h
  obtain ⟨hmtx, _, h⟩ := exceptBindOk h
  obtain ⟨loca, _, h⟩ := exceptBindOk h
  obtain ⟨glyf, _, h⟩ := exceptBindOk h
  obtain ⟨fvar, _, h⟩ := exceptBindOk h
  obtain ⟨gvar, _, h⟩ := exceptBindOk h
  cases h
  exact ⟨rfl, rfl⟩

/-- C1, witness for the amended theorem at the concrete buffer. -/
theorem c1_witness : c1font.avar = none ∧ c1font.hvar = none :=
  c1_avar_hvar_never_assembled c1bytes c1font (by rfl)

/-- C5, counterexample: an 8-byte buffer beginning with "OTTO" does not
produce `(CFFNotSupported, TableDirectory)` — the 12-byte length check of
`TableDirectory::try_parse` fires first. -/
theorem c5_otto8_counterexample :
    Font.fromBytes ottoBytes8 ≠ .error (.err ⟨.CFFNotSupported, .TableDirectory⟩) := by
  have h : Font.fromBytes ottoBytes8 = .error (.err ⟨.Truncated, .TableDirectory⟩) := by rfl
  rw [h]
  intro hc
  injection hc with hc2
  injection hc2 with hc3
  cases hc3

/-- C5, amended: an 8-byte "OTTO" buffer yields
`(Truncated, TableDirectory)`; a buffer of at least 12 bytes beginning
with "OTTO" yields `(CFFNotSupported, TableDirectory)`. -/
theorem c5_otto_behavior :
    Font.fromBytes ottoBytes8 = .error (.err ⟨.Truncated, .TableDirectory⟩)
    ∧ Font.fromBytes ottoBytes12 = .error (.err ⟨.CFFNotSupported, .TableDirectory⟩) :=
  ⟨by rfl, by rfl⟩

/-- C6: a buffer shorter than 4 bytes makes `Font::from_bytes` panic (the
out-of-bounds slice `bytes[0..4]` in `TTCHeader::try_parse`, modelled as
`oob`) instead of returning a `Truncated` error. -/
theorem c6_short_buffer_panics :
    Font.fromBytes [] = .error .oob
    ∧ Font.fromBytes [116, 116, 99] = .error .oob
    ∧ TTCHeader.tryParse [] = .error .oob :=
  ⟨by rfl, by rfl, by rfl⟩

/-- C2: on the axis `(-1, 0, 1)` with avar breakpoints
(-1,-1), (0,0), (1/2,1/2), (1,1), the user coordinate 3/4 (normalized
linearly to 3/4, strictly between the breakpoints 1/2 and 1) comes out as
9/16, not the 3/4 the piecewise-linear interpolation of the claim (and of
the identity segment map) prescribes: the source divides by
`maps[k+1].from / maps[k].from` where interpolation needs the breakpoint
span, and measures from the wrong end.  Every `f32` operation on this run
is exact, so the rational model matches the source bit for bit. -/
theorem c2_avar_interpolation_bug :
    normalize_axis_coords c2font [3/4] = .ok [9/16]
    ∧ (1/2 + ((3/4 - 1/2) / (1 - 1/2)) * (1 - 1/2) : ℚ) = 3/4
    ∧ (9 : ℚ)/16 ≠ 3/4 :=
  ⟨by with_unfolding_all rfl, by norm_num, by norm_num⟩

/-- C4: for a glyph in the LSB-only tail (`number_of_h_metrics` = 1,
`num_glyphs` = 2, glyph id 1), `ScaledGlyph::evaluate` fails with
`Missing` — `hor_metric.get(glyph_id)` only covers the first
`number_of_h_metrics` glyphs, so the last-full-entry fallback the claim
(and spec §4.6) prescribes never happens. -/
theorem c4_tail_glyph_missing :
    ScaledGlyph.evaluate sampleHash tailFont none true 1 12 = .error (.rerr .Missing)
    ∧ tailFont.hhea.number_of_h_metrics = 1
    ∧ tailFont.maxp.num_glyphs = 2
    ∧ tailFont.hmtx.hor_metric.length = 1
    ∧ tailFont.hmtx.left_side_bearings.length = 1 :=
  ⟨by rfl, by rfl, by rfl, by rfl, by rfl⟩

/-- C3, counterexample: with peak 1/2, no intermediate region and
coordinate 3/4 — which is neither 0 nor on the opposite side of zero from
the peak — the tuple is skipped (`tupleScaler` yields `none`), not given
the factor `coord / peak = 3/2` the claim prescribes. -/
theorem c3_beyond_peak_counterexample :
    tupleScaler [3/4] peakHalfTuple = .ok none
    ∧ peakHalfTuple.interm = none
    ∧ ¬((3/4 : ℚ) = 0 ∨ ((3/4 : ℚ) < 0 ∧ (0 : ℚ) < 1/2) ∨ ((0 : ℚ) < 3/4 ∧ (1/2 : ℚ) < 0))
    ∧ (3/4 : ℚ) / (1/2) = 3/2 :=
  ⟨by with_unfolding_all rfl, by rfl, by norm_num, by norm_num⟩

/-- C7, counterexample: all-zero normalized coordinates (the fvar
defaults) do not leave every outline numerically unchanged: a tuple whose
intermediate region `[-1, 1]` strictly straddles zero (peak 1; accepted
by the gvar parser's `start ≤ peak ≤ end` check) applies with scaler 1/2
and shifts every x-coordinate of the triangle outline by 1.  All `f32`
arithmetic on this run is exact. -/
theorem c7_default_coords_counterexample :
    (outline_apply_gvar c7font 0 triOutline [0]).toOption.map
      (fun o => o.points.map OutlinePoint.x) = some [1, 3, 2]
    ∧ triOutline.points.map OutlinePoint.x = [0, 2, 1]
    ∧ ([1, 3, 2] : List ℚ) ≠ [0, 2, 1] :=
  ⟨by with_unfolding_all rfl, by with_unfolding_all rfl, by norm_num⟩

/-- C3, amended: for a single-axis tuple with nonzero peak and no
intermediate region, the axis yields factor 1 exactly at the peak; the
tuple is skipped when the coordinate is 0, on the opposite side of zero
from the peak, **or strictly beyond the peak** (outside
`[min(peak,0), max(peak,0)]`); only a coordinate strictly between 0 and
the peak (exclusive of 0, inclusive of nothing beyond) contributes the
factor `coord / peak`. -/
theorem c3_no_interm_scaler (coord peak : ℚ) (hp : peak ≠ 0) :
    tupleScaler [coord] ⟨[peak], none, [], []⟩ =
      .ok (if coord = peak then some 1
        else if coord = 0 ∨ coord < min peak 0 ∨ coord > max peak 0 then none
        else some (coord / peak)) := by
  unfold tupleScaler
  rw [show ([coord] : List ℚ).enum = [(0, coord)] from rfl]
  unfold tupleScalerGo
  simp only [List.get?, uliftRead, bind, Except.bind]
  rw [if_neg hp]
  unfold tupleScalerGo
  simp only [show (coord = peak) ↔ (peak = coord) from eq_comm]
  split_ifs with h1 h2 <;> simp_all [one_mul, pure, Except.pure]

/-- C3, witness: coordinate 1/4 with peak 1/2 contributes the factor
`(1/4) / (1/2) = 1/2`. -/
theorem c3_witness :
    tupleScaler [1/4] ⟨[1/2], none, [], []⟩ = .ok (some (1/2)) := by
  have h := c3_no_interm_scaler (1/4) (1/2) (by norm_num)
  rw [if_neg (by norm_num), if_neg (by norm_num)] at h
  rw [h]
  norm_num

/-- C8: for an axis with `min < default < max`, `normalize_axis_coords`'
per-axis map sends the default to 0, anything at or below the minimum to
-1 and anything at or above the maximum to +1 (these three paths skip the
avar step entirely, so they hold for any segment map); without avar the
map is the claimed piecewise-linear function — `(c - default) /
(default - min)` below the default and `(c - default) / (max - default)`
above it — and is monotone in the input. -/
theorem c8_normalization_endpoints (axis : VariationAxisRecord)
    (hmin : axis.min_value < axis.default_value)
    (hmax : axis.default_value < axis.max_value) :
    (∀ seg, normalizeAxisCoord axis seg axis.default_value = .ok 0)
    ∧ (∀ seg c, c ≤ axis.min_value → normalizeAxisCoord axis seg c = .ok (-1))
    ∧ (∀ seg c, c ≥ axis.max_value → normalizeAxisCoord axis seg c = .ok 1)
    ∧ (∀ c, axis.min_value < c → c < axis.default_value →
        normalizeAxisCoord axis none c
          = .ok ((c - axis.default_value) / (axis.default_value - axis.min_value)))
    ∧ (∀ c, axis.default_value < c → c < axis.max_value →
        normalizeAxisCoord axis none c
          = .ok ((c - axis.default_value) / (axis.max_value - axis.default_value)))
    ∧ (∀ c1 c2 v1 v2, c1 ≤ c2 →
        normalizeAxisCoord axis none c1 = .ok v1 →
        normalizeAxisCoord axis none c2 = .ok v2 → v1 ≤ v2) := by
  have hd1 : (0 : ℚ) < axis.default_value - axis.min_value := by linarith
  have hd2 : (0 : ℚ) < axis.max_value - axis.default_value := by linarith
  have hnone : ∀ v : ℚ, applyAvarSegment none v = pure v := fun _ => rfl
  have hA : ∀ c, axis.min_value < c → c < axis.default_value →
      -1 < (c - axis.default_value) / (axis.default_value - axis.min_value)
      ∧ (c - axis.default_value) / (axis.default_value - axis.min_value) < 0 := by
    intro c h1 h2
    constructor
    · rw [lt_div_iff hd1]
      linarith
    · exact div_neg_of_neg_of_pos (by linarith) hd1
  have hB : ∀ c, axis.default_value < c → c < axis.max_value →
      0 < (c - axis.default_value) / (axis.max_value - axis.default_value)
      ∧ (c - axis.default_value) / (axis.max_value - axis.default_value) < 1 := by
    intro c h1 h2
    constructor
    · exact div_pos (by linarith) hd2
    · rw [div_lt_one hd2]
      linarith
  have hAm : ∀ a b : ℚ, a ≤ b →
      (a - axis.default_value) / (axis.default_value - axis.min_value)
      ≤ (b - axis.default_value) / (axis.default_value - axis.min_value) := by
    intro a b hab
    exact (div_le_div_right hd1).mpr (by linarith)
  have hBm : ∀ a b : ℚ, a ≤ b →
      (a - axis.default_value) / (axis.max_value - axis.default_value)
      ≤ (b - axis.default_value) / (axis.max_value - axis.default_value) := by
    intro a b hab
    exact (div_le_div_right hd2).mpr (by linarith)
  refine ⟨?_, ?_, ?_, ?_, ?_, ?_⟩
  · intro seg
    unfold normalizeAxisCoord
    rw [if_neg (not_le.mpr hmin), if_neg (not_le.mpr hmax),
      if_neg (lt_irrefl _), if_neg (lt_irrefl _)]
    rfl
  · intro seg c h
    unfold normalizeAxisCoord
    rw [if_pos h]
    rfl
  · intro seg c h
    unfold normalizeAxisCoord
    rw [if_neg (not_le.mpr (by linarith : axis.min_value < c)), if_pos h]
    rfl
  · intro c h1 h2
    unfold normalizeAxisCoord
    rw [if_neg (not_le.mpr h1), if_neg (not_le.mpr (by linarith : c < axis.max_value)),
      if_pos h2, hnone]
    rfl
  · intro c h1 h2
    unfold normalizeAxisCoord
    rw [if_neg (not_le.mpr (by linarith : axis.min_value < c)), if_neg (not_le.mpr h2),
      if_neg (not_lt.mpr (le_of_lt h1)), if_pos h1, hnone]
    rfl
  · intro c1 c2 v1 v2 h12 h1 h2
    unfold normalizeAxisCoord at h1 h2
    rw [hnone, hnone] at h1 h2
    split_ifs at h1 h2 <;>
      simp only [pure, Except.pure, Except.ok.injEq] at h1 h2 <;>
      subst h1 <;> subst h2 <;>
      first
        | linarith
        | exact hAm c1 c2 h12
        | exact hBm c1 c2 h12
        | (have t1 := hA c1 (by linarith) (by linarith); linarith)
        | (have t2 := hA c2 (by linarith) (by linarith); linarith)
        | (have t1 := hB c1 (by linarith) (by linarith); linarith)
        | (have t2 := hB c2 (by linarith) (by linarith); linarith)
        | (have t1 := hA c1 (by linarith) (by linarith);
           have t2 := hB c2 (by linarith) (by linarith); linarith)

/-- C8, witness: the spec's example axis (100, 400, 1000): the default
normalizes to 0, 700 to 1/2, 100 to -1, 1500 to +1. -/
theorem c8_witness :
    normalizeAxisCoord axisWght none 400 = .ok 0
    ∧ normalizeAxisCoord axisWght none 700 = .ok (1/2)
    ∧ normalizeAxisCoord axisWght none 100 = .ok (-1)
    ∧ normalizeAxisCoord axisWght none 1500 = .ok 1 := by
  have h := c8_normalization_endpoints axisWght (by norm_num [axisWght]) (by norm_num [axisWght])
  refine ⟨?_, ?_, ?_, ?_⟩
  · have := h.1 none
    simpa [axisWght] using this
  · have := h.2.2.2.2.1 700 (by norm_num [axisWght]) (by norm_num [axisWght])
    rw [this]
    norm_num [axisWght]
  · exact h.2.1 none 100 (by norm_num [axisWght])
  · exact h.2.2.1 none 1500 (by norm_num [axisWght])

/-- C9: `outline_apply_gvar` is the accumulation phase followed by the
finishing phase, and the finishing phase discards every accumulator slot
with index at or beyond the outline's real point count: two accumulators
that agree on the first `points.len()` slots finish to the same outline,
so deltas indexed into the 4 trailing phantom slots never change a
visible point coordinate. -/
theorem c9_phantom_slots_discarded :
    (∀ (font : Font) (gid : Nat) (o : Outline) (coords : List ℚ)
        (gvar : GvarTable) (gv : GlyphVariation),
      font.gvar = some gvar →
      coords.any (fun c => decide (c < -1 ∨ c > 1)) = false →
      coords.length = gvar.axis_count →
      btreeGet? gvar.glyph_variations gid = some gv →
      outline_apply_gvar font gid o coords = gvarAccumulate gv o coords >>= gvarFinish o)
    ∧ (∀ (o : Outline) (ds ds' : List (ℚ × ℚ)),
      ds.take o.points.length = ds'.take o.points.length →
      gvarFinish o ds = gvarFinish o ds') := by
  constructor
  · intro font gid o coords gvar gv h1 h2 h3 h4
    unfold outline_apply_gvar
    simp only [h1, h2, h3, h4, Bool.false_eq_true, if_false, ne_eq,
      not_true_eq_false, bind, Except.bind, pure]
    simp [Except.pure, h4]
  · intro o ds ds' h
    have hget : ∀ i, i < o.points.length → ds.get? i = ds'.get? i := by
      intro i hi
      have hc := congrArg (fun l => l.get? i) h
      simp only at hc
      rw [List.get?_take hi, List.get?_take hi] at hc
      exact hc
    unfold gvarFinish
    have hmap : (o.points.enum.map (fun ip =>
        match ds.get? ip.1 with
        | some d => (⟨ip.2.x + d.1, ip.2.y + d.2, ip.2.control⟩ : OutlinePoint)
        | none => ip.2))
        = (o.points.enum.map (fun ip =>
        match ds'.get? ip.1 with
        | some d => (⟨ip.2.x + d.1, ip.2.y + d.2, ip.2.control⟩ : OutlinePoint)
        | none => ip.2)) := by
      apply List.map_congr_left
      intro ip hip
      have hlt : ip.1 < o.points.length := by
        have hg := List.mem_enum_iff_get?.mp hip
        exact (List.get?_eq_some.mp hg).1
      rw [hget ip.1 hlt]
    rw [hmap]

/-- C9, witness: a 7-slot accumulator (three real points plus the four
phantom slots) finishes identically whether the phantom slots hold zeros
or arbitrary junk. -/
theorem c9_witness :
    gvarFinish triOutline
      [(1, 1), (1, 1), (1, 1), (0, 0), (0, 0), (0, 0), (0, 0)]
    = gvarFinish triOutline
      [(1, 1), (1, 1), (1, 1), (5, 5), (6, 6), (7, 7), (8, 8)] :=
  c9_phantom_slots_discarded.2 triOutline
    [(1, 1), (1, 1), (1, 1), (0, 0), (0, 0), (0, 0), (0, 0)]
    [(1, 1), (1, 1), (1, 1), (5, 5), (6, 6), (7, 7), (8, 8)]
    (by with_unfolding_all rfl)

/-- Every successful `ScaledGlyph::evaluate` with already-normalized
coordinates carries the fingerprint `evalUniqueId` computed from the
coordinates it was given. -/
theorem evaluate_ok_uid (H : HashStream → Nat) (font : Font)
    (coords0 : Option (List ℚ)) (gid : Nat) (size : ℚ) (g : ScaledGlyph)
    (h : ScaledGlyph.evaluate H font coords0 true gid size = .ok g) :
    g.unique_id = evalUniqueId H font coords0 gid size := by
  unfold ScaledGlyph.evaluate at h
  cases coords0 with
  | none =>
    simp only [bind, Except.bind, pure, Except.pure] at h
    repeat' split at h
    all_goals (try (injection h with h2; subst h2; rfl))
    all_goals simp at h
  | some cs =>
    simp only [Bool.true_eq_false, if_neg, if_false, bind, Except.bind, pure,
      Except.pure] at h
    repeat' split at h
    all_goals (try (injection h with h2; subst h2; rfl))
    all_goals simp at h

/-- C10: with `n` fvar axes, `ScaledGlyph::evaluate` produces the same
fingerprint for `coords = None` and for `coords = Some` of `n` zeros
marked normalized: the absent-coords path writes one 32-bit zero per
axis, bit-identical to the `to_bits` pattern of `n` coordinates equal to
0.0 (`f32bits 0 = 0`), so the two hash streams coincide for any hasher. -/
theorem c10_unique_id_zero_coords (H : HashStream → Nat) (font : Font)
    (gid : Nat) (size : ℚ) (n : Nat)
    (hax : (match font.fvar with | some fv => fv.axes.length | none => 0) = n)
    (g1 g2 : ScaledGlyph)
    (h1 : ScaledGlyph.evaluate H font (some (List.replicate n 0)) true gid size = .ok g1)
    (h2 : ScaledGlyph.evaluate H font none true gid size = .ok g2) :
    g1.unique_id = g2.unique_id := by
  rw [evaluate_ok_uid H font _ gid size g1 h1, evaluate_ok_uid H font _ gid size g2 h2]
  unfold evalUniqueId unique_id
  rw [hax]
  congr 1
  simp only [List.map_replicate]
  have hz : f32bits 0 = 0 := by
    unfold f32bits
    rw [if_pos rfl]
  rw [hz]

/-- C10, witness: on a two-axis font, both calls succeed with the same
scaled glyph, and the theorem applies. -/
theorem c10_witness :
    ScaledGlyph.evaluate sampleHash twoAxisFont (some (List.replicate 2 0)) true 0 12
      = .ok ⟨0, 0, 0, 0, 6, none, 4⟩
    ∧ ScaledGlyph.evaluate sampleHash twoAxisFont none true 0 12
      = .ok ⟨0, 0, 0, 0, 6, none, 4⟩
    ∧ (⟨0, 0, 0, 0, 6, none, 4⟩ : ScaledGlyph).unique_id
      = (⟨0, 0, 0, 0, 6, none, 4⟩ : ScaledGlyph).unique_id :=
  ⟨by with_unfolding_all rfl, by with_unfolding_all rfl,
    c10_unique_id_zero_coords sampleHash twoAxisFont 0 12 2 (by rfl) _ _
      (by with_unfolding_all rfl) (by with_unfolding_all rfl)⟩

/-- At all-zero coordinates, `tupleScalerGo` skips the tuple as soon as
it meets an axis whose peak is nonzero and whose intermediate range does
not strictly straddle zero (or that has no intermediate range at all). -/
theorem tupleScalerGo_zero_skip (t : TupleVariation) :
    ∀ (l : List (Nat × ℚ)) (scaler : ℚ) (applies : Bool),
      (∀ p ∈ l, p.2 = (0 : ℚ)) →
      (∀ p ∈ l, ∃ pk, t.peak.get? p.1 = some pk) →
      (∀ im, t.interm = some im → ∀ p ∈ l,
        (∃ s, im.start.get? p.1 = some s) ∧ (∃ e, im.stop.get? p.1 = some e)) →
      (∃ p, p ∈ l ∧ ∃ pk, t.peak.get? p.1 = some pk ∧ pk ≠ 0 ∧
        (t.interm = none ∨ (∃ im s e, t.interm = some im ∧
          im.start.get? p.1 = some s ∧ im.stop.get? p.1 = some e ∧
          (0 ≤ s ∨ e ≤ 0)))) →
      tupleScalerGo t l scaler applies = .ok none := by
  intro l
  induction l with
  | nil =>
    intro scaler applies _ _ _ hw
    obtain ⟨p, hp, -⟩ := hw
    cases hp
  | cons hd rest ih =>
    intro scaler applies hz hlook hilook hw
    have hz0 : hd.2 = (0 : ℚ) := hz hd (List.mem_cons_self hd rest)
    obtain ⟨pk, hpk⟩ := hlook hd (List.mem_cons_self hd rest)
    have hstep : tupleScalerGo t (hd :: rest) scaler applies
        = (uliftRead (t.peak.get? hd.1)) >>= (fun peak =>
          if peak = 0 then tupleScalerGo t rest scaler applies
          else if peak = hd.2 then tupleScalerGo t rest scaler true
          else match t.interm with
            | some interm =>
              (uliftRead (interm.start.get? hd.1)) >>= (fun is =>
              (uliftRead (interm.stop.get? hd.1)) >>= (fun ie =>
              if hd.2 < is ∨ hd.2 > ie then pure none
              else if hd.2 = is ∨ hd.2 = ie then pure none
              else if hd.2 < peak then
                tupleScalerGo t rest (scaler * ((hd.2 - is) / (peak - is))) true
              else tupleScalerGo t rest (scaler * ((ie - hd.2) / (ie - peak))) true))
            | none =>
              if hd.2 = 0 ∨ hd.2 < min peak 0 ∨ hd.2 > max peak 0 then pure none
              else tupleScalerGo t rest (scaler * (hd.2 / peak)) true) := by
      cases hd
      rfl
    rw [hstep, hpk]
    simp only [uliftRead, bind, Except.bind]
    by_cases hp0 : pk = 0
    · rw [if_pos hp0]
      apply ih scaler applies
        (fun p hp => hz p (List.mem_cons_of_mem hd hp))
        (fun p hp => hlook p (List.mem_cons_of_mem hd hp))
        (fun im him p hp => hilook im him p (List.mem_cons_of_mem hd hp))
      obtain ⟨p, hp, pk', hpk', hne', hc'⟩ := hw
      rcases List.mem_cons.mp hp with heq | hmem
      · subst heq
        rw [hpk] at hpk'
        injection hpk' with hpk2
        subst hpk2
        exact absurd hp0 hne'
      · exact ⟨p, hmem, pk', hpk', hne', hc'⟩
    · rw [if_neg hp0, if_neg (by rw [hz0]; exact hp0)]
      rcases him : t.interm with _ | im
      · simp [hz0]
        rfl
      · obtain ⟨⟨s, hs⟩, ⟨e, he⟩⟩ := hilook im him hd (List.mem_cons_self hd rest)
        simp only [hs, he, uliftRead, bind, Except.bind]
        rw [hz0]
        by_cases hsk : (0 : ℚ) < s ∨ (0 : ℚ) > e
        · rw [if_pos hsk]
          rfl
        · rw [if_neg hsk]
          by_cases heq : (0 : ℚ) = s ∨ (0 : ℚ) = e
          · rw [if_pos heq]
            rfl
          · rw [if_neg heq]
            have hwrest : ∃ p, p ∈ rest ∧ ∃ pk, t.peak.get? p.1 = some pk ∧ pk ≠ 0 ∧
                (t.interm = none ∨ (∃ im s e, t.interm = some im ∧
                  im.start.get? p.1 = some s ∧ im.stop.get? p.1 = some e ∧
                  (0 ≤ s ∨ e ≤ 0))) := by
              obtain ⟨p, hp, pk', hpk', hne', hc'⟩ := hw
              rcases List.mem_cons.mp hp with heqp | hmem
              · subst heqp
                rcases hc' with hcn | ⟨im', s', e', him', hs', he', hrange⟩
                · rw [him] at hcn
                  cases hcn
                · rw [him] at him'
                  injection him' with him2
                  subst him2
                  rw [hs] at hs'
                  rw [he] at he'
                  injection hs' with hs2
                  injection he' with he2
                  subst hs2
                  subst he2
                  rcases hrange with h1 | h1
                  · exact absurd (Or.inl (lt_of_le_of_ne h1 (fun hh => heq (Or.inl hh)))) hsk
                  · exact absurd (Or.inr (lt_of_le_of_ne h1 (fun hh => heq (Or.inr hh.symm)))) hsk
              · exact ⟨p, hmem, pk', hpk', hne', hc'⟩
            have ihz := fun sc ap => ih sc ap
              (fun p hp => hz p (List.mem_cons_of_mem hd hp))
              (fun p hp => hlook p (List.mem_cons_of_mem hd hp))
              (fun im him p hp => hilook im him p (List.mem_cons_of_mem hd hp))
              hwrest
            split_ifs <;> apply ihz

/-- With `tuple_applies` still false, a run over axes whose peaks are all
zero leaves the tuple not applying. -/
theorem tupleScalerGo_zero_allzero (t : TupleVariation) :
    ∀ (l : List (Nat × ℚ)) (scaler : ℚ),
      (∀ p ∈ l, t.peak.get? p.1 = some 0) →
      tupleScalerGo t l scaler false = .ok none := by
  intro l
  induction l with
  | nil => intro scaler _; rfl
  | cons hd rest ih =>
    intro scaler hz
    have hpk := hz hd (List.mem_cons_self hd rest)
    have hstep : tupleScalerGo t (hd :: rest) scaler false
        = (uliftRead (t.peak.get? hd.1)) >>= (fun peak =>
          if peak = 0 then tupleScalerGo t rest scaler false
          else if peak = hd.2 then tupleScalerGo t rest scaler true
          else match t.interm with
            | some interm =>
              (uliftRead (interm.start.get? hd.1)) >>= (fun is =>
              (uliftRead (interm.stop.get? hd.1)) >>= (fun ie =>
              if hd.2 < is ∨ hd.2 > ie then pure none
              else if hd.2 = is ∨ hd.2 = ie then pure none
              else if hd.2 < peak then
                tupleScalerGo t rest (scaler * ((hd.2 - is) / (peak - is))) true
              else tupleScalerGo t rest (scaler * ((ie - hd.2) / (ie - peak))) true))
            | none =>
              if hd.2 = 0 ∨ hd.2 < min peak 0 ∨ hd.2 > max peak 0 then pure none
              else tupleScalerGo t rest (scaler * (hd.2 / peak)) true) := by
      cases hd
      rfl
    rw [hstep, hpk]
    simp only [uliftRead, bind, Except.bind]
    rw [if_true]
    exact ih scaler (fun p hp => hz p (List.mem_cons_of_mem hd hp))

/-- The membership facts of `(List.replicate n 0).enum`: every entry is
`(i, 0)` with `i < n`, and `(i, 0)` is an entry for every `i < n`. -/
theorem enum_replicate_zero_mem (n : Nat) :
    (∀ p ∈ (List.replicate n (0 : ℚ)).enum, p.2 = (0 : ℚ) ∧ p.1 < n)
    ∧ (∀ i, i < n → ((i, (0 : ℚ)) ∈ (List.replicate n (0 : ℚ)).enum)) := by
  constructor
  · intro p hp
    have hg := List.mem_enum_iff_get?.mp hp
    have hlt : p.1 < n := by
      have := (List.get?_eq_some.mp hg).1
      simpa using this
    refine ⟨?_, hlt⟩
    rw [List.get?_eq_getElem?, List.getElem?_replicate, if_pos hlt] at hg
    injection hg with hg2
    exact hg2.symm
  · intro i hi
    apply List.mem_enum_iff_get?.mpr
    rw [List.get?_eq_getElem?, List.getElem?_replicate]
    exact if_pos hi

/-- At all-zero coordinates, a tuple whose peaks are all zero, or that
has some axis with a nonzero peak and no zero-straddling intermediate
range, does not apply. -/
theorem tupleScaler_zero (n : Nat) (t : TupleVariation)
    (hlen : t.peak.length = n)
    (hilen : ∀ im, t.interm = some im → im.start.length = n ∧ im.stop.length = n)
    (hcond : (∀ pk ∈ t.peak, pk = 0)
      ∨ (∃ i pk, t.peak.get? i = some pk ∧ pk ≠ 0 ∧
        (t.interm = none ∨ (∃ im s e, t.interm = some im ∧
          im.start.get? i = some s ∧ im.stop.get? i = some e ∧
          (0 ≤ s ∨ e ≤ 0))))) :
    tupleScaler (List.replicate n 0) t = .ok none := by
  unfold tupleScaler
  have hmem := enum_replicate_zero_mem n
  rcases hcond with hall | ⟨i, pk, hget, hne, hrest⟩
  · apply tupleScalerGo_zero_allzero
    intro p hp
    have hlt : p.1 < t.peak.length := hlen ▸ (hmem.1 p hp).2
    rw [List.get?_eq_getElem?, List.getElem?_eq_getElem hlt]
    have : t.peak[p.1] ∈ t.peak := List.getElem_mem hlt
    rw [hall _ this]
  · apply tupleScalerGo_zero_skip
    · exact fun p hp => (hmem.1 p hp).1
    · intro p hp
      have hlt : p.1 < t.peak.length := hlen ▸ (hmem.1 p hp).2
      exact ⟨t.peak[p.1], by rw [List.get?_eq_getElem?, List.getElem?_eq_getElem hlt]⟩
    · intro im him p hp
      obtain ⟨h1, h2⟩ := hilen im him
      have hlt1 : p.1 < im.start.length := h1 ▸ (hmem.1 p hp).2
      have hlt2 : p.1 < im.stop.length := h2 ▸ (hmem.1 p hp).2
      exact ⟨⟨im.start[p.1], by rw [List.get?_eq_getElem?, List.getElem?_eq_getElem hlt1]⟩,
        ⟨im.stop[p.1], by rw [List.get?_eq_getElem?, List.getElem?_eq_getElem hlt2]⟩⟩
    · have hi : i < n := by
        have := (List.get?_eq_some.mp hget).1
        omega
      exact ⟨(i, 0), hmem.2 i hi, pk, hget, hne, hrest⟩

/-- A fold of non-applying tuples leaves the delta accumulator
untouched. -/
theorem gvarAccumulate_zero (gv : GlyphVariation) (o : Outline) (n : Nat)
    (hall : ∀ t ∈ gv.tuples, tupleScaler (List.replicate n 0) t = .ok none) :
    gvarAccumulate gv o (List.replicate n 0)
      = .ok (List.replicate (o.points.length + 4) ((0 : ℚ), (0 : ℚ))) := by
  unfold gvarAccumulate
  generalize (List.replicate (o.points.length + 4) ((0 : ℚ), (0 : ℚ))) = pd0
  revert hall
  generalize gv.tuples = ts
  induction ts generalizing pd0 with
  | nil => intro _; rfl
  | cons t ts ih =>
    intro hall
    rw [List.foldlM_cons]
    have hnone := hall t (List.mem_cons_self t ts)
    simp only [hnone, bind, Except.bind, pure, Except.pure]
    exact ih pd0 (fun t ht => hall t (List.mem_cons_of_mem _ ht))

/-- Finishing with an all-zero accumulator leaves every point unchanged
and reduces to a plain rebuild. -/
theorem gvarFinish_zero (o : Outline) :
    gvarFinish o (List.replicate (o.points.length + 4) ((0 : ℚ), (0 : ℚ)))
      = match Outline.rebuild o with
        | some o2 => .ok o2
        | none => .error (.uerr .MalformedOutline) := by
  unfold gvarFinish
  have hmap : (o.points.enum.map (fun ip =>
      match (List.replicate (o.points.length + 4) ((0 : ℚ), (0 : ℚ))).get? ip.1 with
      | some d => (⟨ip.2.x + d.1, ip.2.y + d.2, ip.2.control⟩ : OutlinePoint)
      | none => ip.2)) = o.points.enum.map Prod.snd := by
    apply List.map_congr_left
    intro ip hip
    have hlt : ip.1 < o.points.length := by
      have hg := List.mem_enum_iff_get?.mp hip
      exact (List.get?_eq_some.mp hg).1
    rw [List.get?_eq_getElem?, List.getElem?_replicate, if_pos (by omega)]
    simp
  rw [hmap, List.enum_map_snd]
  rfl

/-- `Outline::rebuild` never changes the raw points (it only refreshes
the bounding box and the geometry projection). -/
theorem rebuild_preserves_points (o o2 : Outline)
    (h : Outline.rebuild o = some o2) : o2.points = o.points := by
  unfold Outline.rebuild at h
  rcases hm : o.contours.mapM (fun r => do
      let pts := contourPoints o r
      if pts.length < 3 then none
      else do
        let ptsM := withMidpoints pts
        let g ← contourGeometry ptsM
        some (ptsM, g)) with _ | derived
  · rw [hm] at h
    cases h
  · rw [hm] at h
    injection h with h2
    subst h2
    rfl

/-- Zipping `n` zero coordinates with the region axes pairs each of the
first `n` axes with the coordinate 0. -/
theorem zip_replicate_zero {α : Type} :
    ∀ (n : Nat) (axs : List α),
      (List.replicate n (0 : ℚ)).zip axs
        = (axs.take n).map (fun ax => ((0 : ℚ), ax)) := by
  intro n
  induction n with
  | zero => intro axs; rfl
  | succ m ih =>
    intro axs
    cases axs with
    | nil => rfl
    | cons a rest =>
      simp only [List.replicate_succ, List.zip_cons_cons, List.take_succ_cons,
        List.map_cons, List.cons.injEq]
      exact ⟨trivial, ih rest⟩

/-- At all-zero coordinates, a region with an axis whose peak is nonzero
and whose `[start, end]` range does not strictly straddle zero is
skipped by the `advance_width` scaler loop. -/
theorem itemDeltaScaler_zero_skip :
    ∀ (axs : List RegionAxisCoordinates) (n : Nat) (scaler : ℚ) (ai : Bool),
      (∃ j ax, axs.get? j = some ax ∧ j < n ∧ ax.peak ≠ 0 ∧
        (0 ≤ ax.start ∨ ax.stop ≤ 0)) →
      itemDeltaScaler ((axs.take n).map (fun ax => ((0 : ℚ), ax))) scaler ai = none := by
  intro axs
  induction axs with
  | nil =>
    intro n scaler ai hw
    obtain ⟨j, ax, hj, -⟩ := hw
    rw [List.get?_eq_getElem?] at hj
    simp at hj
  | cons a rest ih =>
    intro n scaler ai hw
    cases n with
    | zero =>
      obtain ⟨j, ax, hj, hjn, -⟩ := hw
      omega
    | succ m =>
      rw [List.take_succ_cons, List.map_cons]
      unfold itemDeltaScaler
      have hwrest : a.peak = 0 ∨ ¬((0 : ℚ) < a.start ∨ (0 : ℚ) > a.stop)
          → ¬((0 : ℚ) = a.start ∨ (0 : ℚ) = a.stop)
          → (∃ j ax, rest.get? j = some ax ∧ j < m ∧ ax.peak ≠ 0 ∧
              (0 ≤ ax.start ∨ ax.stop ≤ 0)) := by
        intro hhead heq
        obtain ⟨j, ax, hj, hjn, hne, hc⟩ := hw
        cases j with
        | zero =>
          rw [List.get?_eq_getElem?] at hj
          simp at hj
          subst hj
          rcases hhead with hp | hsk
          · exact absurd hp hne
          · exfalso
            rcases hc with h1 | h1
            · exact hsk (Or.inl (lt_of_le_of_ne h1 (fun hh => heq (Or.inl hh))))
            · exact hsk (Or.inr (lt_of_le_of_ne h1 (fun hh => heq (Or.inr hh.symm))))
        | succ j' =>
          refine ⟨j', ax, ?_, by omega, hne, hc⟩
          rw [List.get?_eq_getElem?] at hj ⊢
          simpa using hj
      by_cases hp : a.peak = 0
      · rw [if_pos hp]
        apply ih m scaler ai
        by_cases heq : (0 : ℚ) = a.start ∨ (0 : ℚ) = a.stop
        · obtain ⟨j, ax, hj, hjn, hne, hc⟩ := hw
          cases j with
          | zero =>
            rw [List.get?_eq_getElem?] at hj
            simp at hj
            rw [← hj] at hne
            exact absurd hp hne
          | succ j' =>
            refine ⟨j', ax, ?_, by omega, hne, hc⟩
            rw [List.get?_eq_getElem?] at hj ⊢
            simpa using hj
        · exact hwrest (Or.inl hp) heq
      · rw [if_neg hp, if_neg (fun hh => hp hh)]
        by_cases hsk : (0 : ℚ) < a.start ∨ (0 : ℚ) > a.stop
        · rw [if_pos hsk]
        · rw [if_neg hsk]
          by_cases heq : (0 : ℚ) = a.start ∨ (0 : ℚ) = a.stop
          · rw [if_pos heq]
          · rw [if_neg heq]
            have hr := hwrest (Or.inr hsk) heq
            split_ifs <;> exact ih m _ false hr

/-- At all-zero coordinates, a region whose peaks are all zero has every
axis ignored, so it contributes nothing. -/
theorem itemDeltaScaler_zero_allzero :
    ∀ (axs : List RegionAxisCoordinates) (n : Nat) (scaler : ℚ),
      (∀ ax ∈ axs, ax.peak = 0) →
      itemDeltaScaler ((axs.take n).map (fun ax => ((0 : ℚ), ax))) scaler true = none := by
  intro axs
  induction axs with
  | nil => intro n scaler _; cases n <;> rfl
  | cons a rest ih =>
    intro n scaler hz
    cases n with
    | zero => rfl
    | succ m =>
      rw [List.take_succ_cons, List.map_cons]
      unfold itemDeltaScaler
      rw [if_pos (hz a (List.mem_cons_self a rest))]
      exact ih m scaler (fun ax hax => hz ax (List.mem_cons_of_mem a hax))

/-- All-zero coordinates are inside `[-1, 1]`, so the range guard of the
variation functions passes. -/
theorem replicate_zero_any_in_range (n : Nat) :
    (List.replicate n (0 : ℚ)).any (fun c => decide (c < -1 ∨ c > 1)) = false := by
  induction n with
  | zero => rfl
  | succ m ih =>
    rw [List.replicate_succ, List.any_cons, ih]
    norm_num

/-- C7, amended: with user coords at the fvar defaults (all-zero
normalized coordinates), `outline_apply_gvar` leaves every outline point
numerically unchanged (reducing to a plain rebuild, which never touches
the raw points) and the hvar advance delta is 0 — **provided** no gvar
tuple and no hvar region pins a nonzero-peak axis to an intermediate
`[start, end]` range strictly straddling zero.  (The unamended claim
fails on such regions: see the counterexample.)  The gvar condition: each
tuple either has all-zero peaks or some axis with a nonzero peak whose
intermediate range, if any, satisfies `start ≥ 0 ∨ end ≤ 0`; the hvar
condition is the analogous one per region.  The hvar half covers any
advance `DeltaSetIndexMap` (the delta is 0 whatever `(outer, inner)`
pair the map resolves); the map, if present, must be nonempty, and the
store's indices in bounds, since the source panics otherwise. -/
theorem c7_default_coords_identity :
    (∀ (font : Font) (gid : Nat) (o : Outline) (n : Nat) (gvar : GvarTable)
        (gv : GlyphVariation),
      font.gvar = some gvar → gvar.axis_count = n →
      btreeGet? gvar.glyph_variations gid = some gv →
      (∀ t ∈ gv.tuples, t.peak.length = n
        ∧ (∀ im, t.interm = some im → im.start.length = n ∧ im.stop.length = n)
        ∧ ((∀ pk ∈ t.peak, pk = 0)
          ∨ (∃ i pk, t.peak.get? i = some pk ∧ pk ≠ 0
            ∧ (t.interm = none ∨ (∃ im s e, t.interm = some im
              ∧ im.start.get? i = some s ∧ im.stop.get? i = some e
              ∧ (0 ≤ s ∨ e ≤ 0)))))) →
      outline_apply_gvar font gid o (List.replicate n 0)
        = match Outline.rebuild o with
          | some o2 => .ok o2
          | none => .error (.uerr .MalformedOutline))
    ∧ (∀ o o2, Outline.rebuild o = some o2 → o2.points = o.points)
    ∧ (∀ (font : Font) (gid : Nat) (n : Nat) (hvar : HvarTable),
      font.hvar = some hvar →
      hvar.item_variation_store.axis_count = n →
      (∀ im, hvar.advance_map = some im → im.map_data ≠ []) →
      (∀ it ∈ hvar.item_variation_store.item_data,
        (∀ row ∈ it.delta_sets, row.data.length ≤ it.region_indexes.length)
        ∧ (∀ ri ∈ it.region_indexes, ri < hvar.item_variation_store.regions.length)) →
      (∀ r ∈ hvar.item_variation_store.regions,
        (∀ ax ∈ r.axes, ax.peak = 0)
        ∨ (∃ j ax, r.axes.get? j = some ax ∧ j < n ∧ ax.peak ≠ 0
          ∧ (0 ≤ ax.start ∨ ax.stop ≤ 0))) →
      advance_width font gid (List.replicate n 0) = .ok 0) := by
  refine ⟨?_, rebuild_preserves_points, ?_⟩
  · intro font gid o n gvar gv h1 h2 h3 h4
    have hacc := gvarAccumulate_zero gv o n (fun t ht => by
      obtain ⟨hl, hil, hc⟩ := h4 t ht
      exact tupleScaler_zero n t hl hil hc)
    unfold outline_apply_gvar
    simp only [replicate_zero_any_in_range n, Bool.false_eq_true, if_false, h1, h2,
      h3, List.length_replicate, ne_eq, not_true_eq_false, bind, Except.bind, pure,
      Except.pure, hacc]
    exact gvarFinish_zero o
  · intro font gid n hvar h1 h2 h3 h4 h5
    have hcont : ∀ oi : Nat × Nat,
        advanceWidthCont hvar (List.replicate n 0) oi = .ok 0 := by
      rintro ⟨outer, inner⟩
      unfold advanceWidthCont
      simp only [bind, Except.bind, pure, Except.pure]
      by_cases hid : outer ≥ hvar.item_variation_store.item_data.length
      · rw [if_pos hid]
      · rw [if_neg hid]
        rcases hit : hvar.item_variation_store.item_data.get? outer with _ | it0
        · exfalso
          rw [List.get?_eq_getElem?, List.getElem?_eq_none_iff] at hit
          omega
        · simp only [uliftRead, bind, Except.bind]
          by_cases hds : inner ≥ it0.delta_sets.length
          · rw [if_pos hds]
          · rw [if_neg hds]
            rcases hrow : it0.delta_sets.get? inner with _ | row
            · exfalso
              rw [List.get?_eq_getElem?, List.getElem?_eq_none_iff] at hrow
              omega
            · simp only [uliftRead, bind, Except.bind]
              have hit0mem : it0 ∈ hvar.item_variation_store.item_data :=
                List.get?_mem hit
              have hrowmem : row ∈ it0.delta_sets := List.get?_mem hrow
              obtain ⟨hlen1, hlen2⟩ := h4 it0 hit0mem
              have hrlen := hlen1 row hrowmem
              have hfold : ∀ (l : List (Nat × DeltaData)) (total : ℚ),
                  (∀ p ∈ l, p.1 < row.data.length) →
                  (l.foldlM (fun (total : ℚ) idd => do
                    let ri ← uliftRead (it0.region_indexes.get? idd.1)
                    let region ← uliftRead (hvar.item_variation_store.regions.get? ri)
                    match itemDeltaScaler
                        ((List.replicate n (0 : ℚ)).zip region.axes) 1 true with
                    | none => pure total
                    | some scaler => pure (total + scaler * idd.2.asF32)) total)
                    = .ok total := by
                intro l
                induction l with
                | nil => intro total _; rfl
                | cons p rest ihl =>
                  intro total hmem
                  rw [List.foldlM_cons]
                  have hplt : p.1 < it0.region_indexes.length :=
                    lt_of_lt_of_le (hmem p (List.mem_cons_self p rest)) hrlen
                  rcases hri : it0.region_indexes.get? p.1 with _ | ri
                  · rw [List.get?_eq_getElem?] at hri
                    simp at hri
                    omega
                  · have hrilt : ri < hvar.item_variation_store.regions.length :=
                      hlen2 ri (List.get?_mem hri)
                    rcases hreg : hvar.item_variation_store.regions.get? ri with _ | region
                    · rw [List.get?_eq_getElem?] at hreg
                      simp at hreg
                      omega
                    · have hregmem : region ∈ hvar.item_variation_store.regions :=
                        List.get?_mem hreg
                      have hscaler : itemDeltaScaler
                          ((List.replicate n (0 : ℚ)).zip region.axes) 1 true = none := by
                        rw [zip_replicate_zero n region.axes]
                        rcases h5 region hregmem with hall | hwit
                        · exact itemDeltaScaler_zero_allzero region.axes n 1 hall
                        · exact itemDeltaScaler_zero_skip region.axes n 1 true hwit
                      simp only [uliftRead, bind, Except.bind, pure, Except.pure,
                        hreg, hscaler]
                      exact ihl total (fun q hq => hmem q (List.mem_cons_of_mem p hq))
              have hmem : ∀ p ∈ row.data.enum, p.1 < row.data.length := by
                intro p hp
                exact (List.get?_eq_some.mp (List.mem_enum_iff_get?.mp hp)).1
              exact hfold row.data.enum 0 hmem
    unfold advance_width
    simp only [replicate_zero_any_in_range n, Bool.false_eq_true, if_false, h1, h2,
      List.length_replicate, ne_eq, not_true_eq_false, bind, Except.bind, pure,
      Except.pure]
    rcases ham : hvar.advance_map with _ | im
    · exact hcont (0, gid)
    · have hne : im.map_data ≠ [] := h3 im ham
      have hlen0 : ¬ im.map_data.length = 0 :=
        fun h => hne (List.length_eq_zero.mp h)
      simp only [if_neg hlen0]
      rcases hget : im.map_data.get?
          (if gid ≥ im.map_data.length then im.map_data.length - 1 else gid)
        with _ | p
      · exfalso
        rw [List.get?_eq_getElem?, List.getElem?_eq_none_iff] at hget
        split at hget <;> omega
      · exact hcont p

/-- A font whose only gvar tuple has peak 1/2 and no intermediate region
(so it cannot apply at the default coordinates). -/
def c7wfont : Font :=
  ⟨cmap0, head1000, hhea1, ⟨[⟨500, 0⟩], []⟩, maxp1, name0, ⟨[]⟩,
    none, some ⟨1, 0, 1, [(0, ⟨[peakHalfTuple]⟩)]⟩, none, none⟩

/-- A font whose hvar store has one region with peak 0 on its single
axis and a delta row of 7 for glyph 0. -/
def c7hfont : Font :=
  ⟨cmap0, head1000, hhea1, ⟨[⟨500, 0⟩], []⟩, maxp1, name0, ⟨[]⟩,
    none, none, none,
    some ⟨1, 0, ⟨1, [⟨[⟨0, 0, 0⟩]⟩], [⟨[0], [⟨[.I16 7]⟩]⟩]⟩, none, none, none⟩⟩

/-- C7, witness: at the default coordinates the peak-1/2 tuple does not
apply (the outline only gets rebuilt), and the hvar delta of the
all-zero-peak region is 0. -/
theorem c7_witness :
    (outline_apply_gvar c7wfont 0 triOutline (List.replicate 1 0)
      = match Outline.rebuild triOutline with
        | some o2 => .ok o2
        | none => .error (.uerr .MalformedOutline))
    ∧ advance_width c7hfont 0 (List.replicate 1 0) = .ok 0 := by
  constructor
  · apply c7_default_coords_identity.1 c7wfont 0 triOutline 1 _ _ rfl rfl rfl
    intro t ht
    have ht2 : t = peakHalfTuple := by
      simpa using ht
    subst ht2
    refine ⟨rfl, ?_, ?_⟩
    · intro im h
      cases h
    · exact Or.inr ⟨0, 1/2, rfl, by norm_num, Or.inl rfl⟩
  · apply c7_default_coords_identity.2.2 c7hfont 0 1 _ rfl rfl
      (fun im h => by cases h)
    · intro it hit
      have hit2 : it = ⟨[0], [⟨[.I16 7]⟩]⟩ := by
        simpa [c7hfont] using hit
      subst hit2
      constructor
      · intro row hrow
        have : row = ⟨[.I16 7]⟩ := by simpa using hrow
        subst this
        simp
      · intro ri hri
        have : ri = 0 := by simpa using hri
        subst this
        simp [c7hfont]
    · intro r hr
      have hr2 : r = ⟨[⟨0, 0, 0⟩]⟩ := by
        simpa [c7hfont] using hr
      subst hr2
      left
      intro ax hax
      have : ax = ⟨0, 0, 0⟩ := by simpa using hax
      subst this
      rfl
